import Mathlib

/-!
# Deployment watcher controller

A shallow embedding of `deployment_watcher_controller.go`: the worker step
`ProcessNextItem`, the reconcile function `syncToStdout`, the retry policy
`handleError`, the start-up routine `Run` and the three event handlers that
`main` registers with the informer.

The controller talks to three collaborators that live in imported packages:
the rate-limiting work queue, the indexer (the local cache) and the error sink.
The work queue and the indexer are embedded as records of operations over an
abstract state, exactly the methods the controller calls. Every call to a
collaborator is also appended to a log, so that "calls X exactly once" and
"X comes after Y" are statements about that log.
-/

namespace DeploymentWatcher

/-! ## Values -/

/-- Go `interface{}` values that travel through the work queue as items. -/
inductive Item
  | nil
  | str (s : String)
  | other (tag : Nat)
  deriving DecidableEq, Repr

/-- Go `error` values; a nil error is `none : Option Err`. -/
abbrev Err := String

/-- Go `interface{}` values that the informer delivers and the indexer stores. -/
inductive Object
  | nil
  | deployment (namespace_ : String) (name : String)
  | explicitKey (key : String)
  | deletedFinalStateUnknown (key : String) (obj : Object)
  | other (tag : Nat)
  deriving DecidableEq, Repr

/-- Arguments handed to the logging and printing calls. -/
inductive Arg
  | item (k : Item)
  | err (e : Err)
  | text (s : String)
  deriving DecidableEq, Repr

/-- Calls the controller makes to its collaborators, in the order made. -/
inductive Event
  | queueGet
  | queueDone (k : Item)
  | queueAdd (k : Item)
  | queueAddRateLimited (k : Item)
  | queueForget (k : Item)
  | queueNumRequeues (k : Item)
  | queueShutDown
  | indexerGetByKey (key : String)
  | runtimeHandleError (e : Err)
  | runtimeHandleCrash
  | klogErrorf (format : String) (args : List Arg)
  | klogInfof (format : String) (args : List Arg)
  | klogInfo (msg : String)
  | fmtPrintf (format : String) (args : List Arg)
  | goInformerRun
  | waitForCacheSync
  | goWaitUntilRunWorker
  | recvStopCh
  deriving DecidableEq, Repr

/-- How a Go call ends: it returns a value, or a run-time panic unwinds it. -/
inductive Outcome (α : Type)
  | returned (a : α)
  | panicked
  deriving DecidableEq, Repr

/-! ## Collaborators -/

/-- The methods of `workqueue.RateLimitingInterface` that the controller calls,
over an abstract queue state `Q`. `Get` blocks until the queue has something
to report; `none` stands for a call that never returns. -/
structure RateLimitingInterface (Q : Type) where
  Get : Q → Option ((Item × Bool) × Q)
  Done : Q → Item → Q
  Add : Q → Item → Q
  AddRateLimited : Q → Item → Q
  Forget : Q → Item → Q
  NumRequeues : Q → Item → Int
  ShutDown : Q → Q

/-- What `cache.Indexer.GetByKey` hands back: `(item, exists, err)`. -/
structure GetByKeyResult where
  item : Object
  found : Bool
  err : Option Err
  deriving DecidableEq, Repr

/-- The one method of `cache.Indexer` that the controller calls. -/
structure Indexer where
  GetByKey : String → GetByKeyResult

/-- The `Controller` struct (the informer field is only used by `Run`, where
its behaviour enters as the result of the cache sync). -/
structure Controller (Q : Type) where
  indexer : Indexer
  queue : RateLimitingInterface Q

/-- `NewController`. -/
def NewController {Q : Type} (queue : RateLimitingInterface Q) (indexer : Indexer) :
    Controller Q :=
  { indexer := indexer, queue := queue }

/-- The state threaded through the controller: the queue and the call log. -/
structure World (Q : Type) where
  queue : Q
  log : List Event

/-- Append one call to the log. -/
def World.emit {Q : Type} (w : World Q) (e : Event) : World Q :=
  { w with log := w.log ++ [e] }

/-- The calls logged between an earlier world and a later one. -/
def eventsSince {Q : Type} (w w' : World Q) : List Event :=
  w'.log.drop w.log.length

/-! ## The controller -/

/-- The `string` type assertion `key.(string)`: it panics on any other value. -/
def assertString : Item → Outcome String
  | .str s => .returned s
  | _ => .panicked

/-- The expression `obj.(*appsv1.Deployment).GetName()`. -/
def deploymentName : Object → Outcome String
  | .deployment _ name => .returned name
  | _ => .panicked

/-- `syncToStdout`, the business logic of the controller. -/
def syncToStdout {Q : Type} (c : Controller Q) (key : String) (w : World Q) :
    Outcome (Option Err) × World Q :=
  let r := c.indexer.GetByKey key
  let w := w.emit (.indexerGetByKey key)
  match r.err with
  | some err =>
    let w := w.emit (.klogErrorf "Fetching object with key %s from store failed with %v"
      [.text key, .err err])
    (.returned (some err), w)
  | none =>
    if !r.found then
      let w := w.emit (.fmtPrintf "Deployment %s does not exist anymore\n" [.text key])
      (.returned none, w)
    else
      match deploymentName r.item with
      | .panicked => (.panicked, w)
      | .returned name =>
        let w := w.emit (.fmtPrintf "Sync/Add/Update for deployment %s\n" [.text name])
        (.returned none, w)

/-- `handleError`: checks if an error happened and makes sure we retry later. -/
def handleError {Q : Type} (c : Controller Q) (err : Option Err) (key : Item) (w : World Q) :
    World Q :=
  match err with
  | none =>
    ({ w with queue := c.queue.Forget w.queue key }).emit (.queueForget key)
  | some e =>
    let n := c.queue.NumRequeues w.queue key
    let w := w.emit (.queueNumRequeues key)
    if n < 5 then
      let w := w.emit (.klogInfof "Error syncing deployment %v:%v" [.item key, .err e])
      ({ w with queue := c.queue.AddRateLimited w.queue key }).emit (.queueAddRateLimited key)
    else
      let w := ({ w with queue := c.queue.Forget w.queue key }).emit (.queueForget key)
      let w := w.emit (.runtimeHandleError e)
      w.emit (.klogInfof "Dropping deployment %q out of queue: %v" [.item key, .err e])

/-- The deferred `c.queue.Done(key)`. -/
def deferredDone {Q : Type} (c : Controller Q) (key : Item) (w : World Q) : World Q :=
  ({ w with queue := c.queue.Done w.queue key }).emit (.queueDone key)

/-- `ProcessNextItem`. `none` means the call is still blocked in `queue.Get`. The
deferred `Done` runs on every way out of the function body, a panic included. -/
def ProcessNextItem {Q : Type} (c : Controller Q) (w : World Q) :
    Option (Outcome Bool × World Q) :=
  match c.queue.Get w.queue with
  | none => none
  | some ((key, quit), q) =>
    let w : World Q := ({ w with queue := q }).emit .queueGet
    if quit then
      some (.returned false, w)
    else
      match assertString key with
      | .panicked => some (.panicked, deferredDone c key w)
      | .returned s =>
        match syncToStdout c s w with
        | (.panicked, w) => some (.panicked, deferredDone c key w)
        | (.returned err, w) =>
          let w := handleError c err key w
          some (.returned true, deferredDone c key w)

/-- How `runWorker` ends. -/
inductive LoopEnd
  | exited
  | panicked
  | blocked
  | outOfFuel
  deriving DecidableEq, Repr

/-- `runWorker`: `for c.ProcessNextItem() {}`, with a bound on the number of
iterations looked at. -/
def runWorker {Q : Type} (c : Controller Q) : Nat → World Q → LoopEnd × World Q
  | 0, w => (.outOfFuel, w)
  | fuel + 1, w =>
    match ProcessNextItem c w with
    | none => (.blocked, w)
    | some (.panicked, w) => (.panicked, w)
    | some (.returned false, w) => (.exited, w)
    | some (.returned true, w) => runWorker c fuel w

/-- How `Run` ends: it returns, or it stays in `<-stopCh` for ever. -/
inductive RunEnd
  | returned
  | waiting
  deriving DecidableEq, Repr

/-- The loop `for i := 0; i < threadiness; i++ { go wait.Until(c.runWorker, ...) }`. -/
def startWorkers {Q : Type} : Nat → World Q → World Q
  | 0, w => w
  | n + 1, w => startWorkers n (w.emit .goWaitUntilRunWorker)

/-- The deferred calls of `Run`, last registered first: `c.queue.ShutDown()` and
then `runtime.HandleCrash()`. -/
def runDeferred {Q : Type} (c : Controller Q) (w : World Q) : World Q :=
  (({ w with queue := c.queue.ShutDown w.queue }).emit .queueShutDown).emit .runtimeHandleCrash

/-- `Run`. `cacheSynced` is what `cache.WaitForCacheSync` returns and
`stopClosed` says whether `stopCh` is ever closed. -/
def Run {Q : Type} (c : Controller Q) (threadiness : Int) (cacheSynced stopClosed : Bool)
    (w : World Q) : RunEnd × World Q :=
  let w := w.emit (.klogInfo "Starting deployment controller")
  let w := w.emit .goInformerRun
  let w := w.emit .waitForCacheSync
  if !cacheSynced then
    let w := w.emit (.runtimeHandleError "Timed out waiting for caches to sync")
    (.returned, runDeferred c w)
  else
    let w := startWorkers threadiness.toNat w
    if stopClosed then
      let w := w.emit .recvStopCh
      let w := w.emit (.klogInfo "Stopping deployment controller")
      (.returned, runDeferred c w)
    else
      (.waiting, w)

/-! ## The event handlers registered in `main` -/

/-- The two key functions of the imported `cache` package that the handlers
call. Each returns `(key, err)`. -/
structure KeyFuncs where
  MetaNamespaceKeyFunc : Object → String × Option Err
  DeletionHandlingMetaNamespaceKeyFunc : Object → String × Option Err

/-- The `AddFunc` closure. -/
def AddFunc {Q : Type} (kf : KeyFuncs) (queue : RateLimitingInterface Q) (obj : Object)
    (w : World Q) : World Q :=
  let (key, err) := kf.MetaNamespaceKeyFunc obj
  match err with
  | none => ({ w with queue := queue.Add w.queue (.str key) }).emit (.queueAdd (.str key))
  | some _ => w

/-- The `UpdateFunc` closure. -/
def UpdateFunc {Q : Type} (kf : KeyFuncs) (queue : RateLimitingInterface Q)
    (_oldObj newObj : Object) (w : World Q) : World Q :=
  let (key, err) := kf.MetaNamespaceKeyFunc newObj
  match err with
  | none => ({ w with queue := queue.Add w.queue (.str key) }).emit (.queueAdd (.str key))
  | some _ => w

/-- The `DeleteFunc` closure. -/
def DeleteFunc {Q : Type} (kf : KeyFuncs) (queue : RateLimitingInterface Q) (obj : Object)
    (w : World Q) : World Q :=
  let (key, err) := kf.DeletionHandlingMetaNamespaceKeyFunc obj
  match err with
  | none => ({ w with queue := queue.Add w.queue (.str key) }).emit (.queueAdd (.str key))
  | some _ => w

/-- Modelled from the spec: `cache.MetaNamespaceKeyFunc` belongs to an imported
package and is not among the sources. The key names one resource by namespace
and name (section 3, ResourceKey); an explicit key is its own key; a value
without object metadata has no key. -/
def metaNamespaceKey : Object → String × Option Err
  | .explicitKey key => (key, none)
  | .deployment ns name => if ns.length > 0 then (ns ++ "/" ++ name, none) else (name, none)
  | _ => ("", some "object has no meta")

/-- Modelled from the spec: `cache.DeletionHandlingMetaNamespaceKeyFunc` belongs
to an imported package and is not among the sources. The key must be computable
when only a tombstone is available (section 4.3): a tombstone yields the key it
carries, any other value goes through the ordinary key function. -/
def deletionHandlingMetaNamespaceKey : Object → String × Option Err
  | .deletedFinalStateUnknown key _ => (key, none)
  | obj => metaNamespaceKey obj

/-- Modelled from the spec: the two key functions of the imported `cache`
package, as described above. -/
def cacheKeyFuncs : KeyFuncs :=
  { MetaNamespaceKeyFunc := metaNamespaceKey
    DeletionHandlingMetaNamespaceKeyFunc := deletionHandlingMetaNamespaceKey }

/-! ## A work queue after section 4.2 of the specification -/

/-- Modelled from the spec: the work queue is an imported package and is not
among the sources. The state follows section 4.2: the keys that are ready, the
keys marked dirty while in flight, the keys in flight, one entry per failure
recorded for a key, the keys whose delayed re-add has not happened yet, and
the shut-down flag. -/
structure WorkQueue where
  queue : List Item
  dirty : List Item
  processing : List Item
  failures : List Item
  waiting : List Item
  shuttingDown : Bool
  deriving DecidableEq, Repr

namespace WorkQueue

/-- Modelled from the spec: a new, empty work queue (imported package). -/
def empty : WorkQueue :=
  { queue := [], dirty := [], processing := [], failures := [], waiting := [],
    shuttingDown := false }

/-- Modelled from the spec: `Add(key)` of the imported work queue. It inserts the
key if it is not already queued; a key that is being processed is marked dirty
instead. -/
def add (q : WorkQueue) (key : Item) : WorkQueue :=
  if key ∈ q.processing then
    if key ∈ q.dirty then q else { q with dirty := key :: q.dirty }
  else if key ∈ q.queue then q
  else { q with queue := q.queue ++ [key] }

/-- Modelled from the spec: `Get()` of the imported work queue. After shut-down it
reports `shutdown = true`; otherwise it hands out the first ready key and marks
it in flight, and blocks while there is none. -/
def get (q : WorkQueue) : Option ((Item × Bool) × WorkQueue) :=
  if q.shuttingDown then some ((.nil, true), q)
  else
    match q.queue with
    | [] => none
    | key :: rest => some ((key, false), { q with queue := rest, processing := key :: q.processing })

/-- Modelled from the spec: `Done(key)` of the imported work queue. The key is no
longer in flight; if it was marked dirty during processing it is re-added at once. -/
def done (q : WorkQueue) (key : Item) : WorkQueue :=
  let q1 := { q with processing := q.processing.filter (fun k => k ≠ key) }
  if key ∈ q.dirty then
    add { q1 with dirty := q1.dirty.filter (fun k => k ≠ key) } key
  else q1

/-- Modelled from the spec: `AddRateLimited(key)` of the imported work queue. It
records one more failure for the key and re-adds the key after a delay. -/
def addRateLimited (q : WorkQueue) (key : Item) : WorkQueue :=
  { q with failures := key :: q.failures, waiting := q.waiting ++ [key] }

/-- Modelled from the spec: the delay of a rate-limited add has elapsed and the
key is re-added (imported work queue). -/
def fire (q : WorkQueue) (key : Item) : WorkQueue :=
  add { q with waiting := q.waiting.erase key } key

/-- Modelled from the spec: `Forget(key)` of the imported work queue resets the
failure history of the key. -/
def forget (q : WorkQueue) (key : Item) : WorkQueue :=
  { q with failures := q.failures.filter (fun k => k ≠ key) }

/-- Modelled from the spec: `NumRequeues(key)` of the imported work queue, the
current consecutive-failure count. -/
def numRequeues (q : WorkQueue) (key : Item) : Int :=
  (q.failures.count key : Nat)

/-- Modelled from the spec: `ShutDown()` of the imported work queue. -/
def shutDown (q : WorkQueue) : WorkQueue :=
  { q with shuttingDown := true }

/-- Modelled from the spec: the imported work queue as a
`workqueue.RateLimitingInterface`. -/
def iface : RateLimitingInterface WorkQueue :=
  { Get := get, Done := done, Add := add, AddRateLimited := addRateLimited,
    Forget := forget, NumRequeues := numRequeues, ShutDown := shutDown }

end WorkQueue

/-- Modelled from the spec: the delay of a rate-limited add of the key elapses, if
one is pending (imported work queue). -/
def WorkQueue.elapse (q : WorkQueue) (key : Item) : WorkQueue :=
  if key ∈ q.waiting then q.fire key else q

/-- The work queue of section 4.2 with one key ready, `m` failures recorded for
it, and nothing else. -/
def retryQueue (key : Item) (m : Nat) : WorkQueue :=
  { queue := [key], dirty := [], processing := [], failures := List.replicate m key,
    waiting := [], shuttingDown := false }

/-- One attempt on a key that is retried: a worker runs `ProcessNextItem`, which
returns true, and then the delay of the key's re-add, if any, elapses. -/
def attempt (c : Controller WorkQueue) (key : Item) (w : World WorkQueue) :
    Option (World WorkQueue) :=
  match ProcessNextItem c w with
  | some (.returned true, w') => some { w' with queue := w'.queue.elapse key }
  | _ => none

/-- The first `n` attempts on a key, one after the other. -/
def attempts (c : Controller WorkQueue) (key : Item) : Nat → World WorkQueue →
    Option (World WorkQueue)
  | 0, w => some w
  | n + 1, w =>
    match attempt c key w with
    | some w' => attempts c key n w'
    | none => none

/-- The retry run of a key whose reconcile fails every time: one `handleError`
call per failure, in order. -/
def failRepeatedly {Q : Type} (c : Controller Q) (key : Item) : List Err → World Q → World Q
  | [], w => w
  | e :: es, w => failRepeatedly c key es (handleError c (some e) key w)

/-! ## Workers running side by side

`Run` starts `threadiness` goroutines, each in the loop of `runWorker`. Every call
to the work queue is atomic (the queue guards its state), so a run of the whole
controller is an interleaving of the queue calls of the workers, of the handlers,
and of the queue's own delayed re-adds. -/

/-- Where a worker stands inside `runWorker` and `ProcessNextItem`: before
`queue.Get`; holding a key with `Done` deferred, before the reconcile; before
`handleError`; inside `handleError` after `NumRequeues` was read; before the
deferred `Done`; after `ProcessNextItem` returned false; after a panic. -/
inductive Worker
  | atGet
  | atSync (key : Item)
  | atHandle (key : Item) (err : Option Err)
  | atRetry (key : Item) (e : Err) (n : Int)
  | atDone (key : Item) (panicking : Bool)
  | exited
  | crashed
  deriving DecidableEq, Repr

/-- The key a worker has taken with `Get` and not yet given back with `Done`. -/
def Worker.inFlight : Worker → Option Item
  | .atSync key => some key
  | .atHandle key _ => some key
  | .atRetry key _ _ => some key
  | .atDone key _ => some key
  | _ => none

/-- Where a worker goes once the reconcile has ended. -/
def Worker.afterSync (key : Item) : Outcome (Option Err) → Worker
  | .returned err => .atHandle key err
  | .panicked => .atDone key true

/-- Where a worker goes once the deferred `Done` has run. -/
def Worker.afterDone : Bool → Worker
  | true => .crashed
  | false => .atGet

/-- Where a worker goes once `ProcessNextItem` has ended: back to `Get` after
true, out of the loop after false, and nowhere after a panic. -/
def Worker.afterCall : Outcome Bool → Worker
  | .returned true => .atGet
  | .returned false => .exited
  | .panicked => .crashed

/-- The shared work queue and the `n` workers. -/
structure System (n : Nat) where
  queue : WorkQueue
  workers : Fin n → Worker

/-- The controller at start: an empty queue, every worker about to call `Get`. -/
def System.init (n : Nat) : System n :=
  { queue := WorkQueue.empty, workers := fun _ => .atGet }

/-- Worker `i` moves on and the queue becomes `q`. -/
def System.move {n : Nat} (s : System n) (i : Fin n) (wk : Worker) (q : WorkQueue) : System n :=
  { queue := q, workers := Function.update s.workers i wk }

/-- One atomic step of the controller. -/
inductive Step {n : Nat} : System n → System n → Prop
  | added (s : System n) (kf : KeyFuncs) (obj : Object) :
      Step s { s with queue := (AddFunc kf WorkQueue.iface obj
        { queue := s.queue, log := [] }).queue }
  | updated (s : System n) (kf : KeyFuncs) (oldObj newObj : Object) :
      Step s { s with queue := (UpdateFunc kf WorkQueue.iface oldObj newObj
        { queue := s.queue, log := [] }).queue }
  | deleted (s : System n) (kf : KeyFuncs) (obj : Object) :
      Step s { s with queue := (DeleteFunc kf WorkQueue.iface obj
        { queue := s.queue, log := [] }).queue }
  | delayElapsed (s : System n) (key : Item) (h : key ∈ s.queue.waiting) :
      Step s { s with queue := s.queue.fire key }
  | shutDown (s : System n) :
      Step s { s with queue := WorkQueue.iface.ShutDown s.queue }
  | get (s : System n) (i : Fin n) (key : Item) (q : WorkQueue)
      (hw : s.workers i = .atGet)
      (hg : WorkQueue.iface.Get s.queue = some ((key, false), q)) :
      Step s (s.move i (.atSync key) q)
  | getShutdown (s : System n) (i : Fin n) (key : Item) (q : WorkQueue)
      (hw : s.workers i = .atGet)
      (hg : WorkQueue.iface.Get s.queue = some ((key, true), q)) :
      Step s (s.move i .exited q)
  | restart (s : System n) (i : Fin n) (hw : s.workers i = .exited) :
      Step s (s.move i .atGet s.queue)
  | keyPanic (s : System n) (i : Fin n) (key : Item)
      (hw : s.workers i = .atSync key) (hk : assertString key = .panicked) :
      Step s (s.move i (.atDone key true) s.queue)
  | sync (s : System n) (i : Fin n) (key : Item) (str : String) (indexer : Indexer)
      (hw : s.workers i = .atSync key) (hk : assertString key = .returned str) :
      Step s (s.move i
        (Worker.afterSync key (syncToStdout (NewController WorkQueue.iface indexer) str
          { queue := s.queue, log := [] }).1) s.queue)
  | forget (s : System n) (i : Fin n) (key : Item)
      (hw : s.workers i = .atHandle key none) :
      Step s (s.move i (.atDone key false) (WorkQueue.iface.Forget s.queue key))
  | count (s : System n) (i : Fin n) (key : Item) (e : Err)
      (hw : s.workers i = .atHandle key (some e)) :
      Step s (s.move i (.atRetry key e (WorkQueue.iface.NumRequeues s.queue key)) s.queue)
  | requeue (s : System n) (i : Fin n) (key : Item) (e : Err) (m : Int)
      (hw : s.workers i = .atRetry key e m) (hm : m < 5) :
      Step s (s.move i (.atDone key false) (WorkQueue.iface.AddRateLimited s.queue key))
  | giveUp (s : System n) (i : Fin n) (key : Item) (e : Err) (m : Int)
      (hw : s.workers i = .atRetry key e m) (hm : ¬ m < 5) :
      Step s (s.move i (.atDone key false) (WorkQueue.iface.Forget s.queue key))
  | done (s : System n) (i : Fin n) (key : Item) (panicking : Bool)
      (hw : s.workers i = .atDone key panicking) :
      Step s (s.move i (Worker.afterDone panicking) (WorkQueue.iface.Done s.queue key))

/-- The states the controller can be in: those reached from the start by steps. -/
def Reachable {n : Nat} (s : System n) : Prop :=
  Relation.ReflTransGen Step (System.init n) s

/-- What the queue keeps true of itself: no key is ready twice, and no key is
ready while it is in flight. -/
def WorkQueue.Sound (q : WorkQueue) : Prop :=
  q.queue.Nodup ∧ ∀ key ∈ q.queue, key ∉ q.processing

/-- What holds in every reachable state: the queue is sound, every key a worker
holds is marked in flight, and no two workers hold the same key. -/
def System.Inv {n : Nat} (s : System n) : Prop :=
  s.queue.Sound
  ∧ (∀ i key, (s.workers i).inFlight = some key → key ∈ s.queue.processing)
  ∧ (∀ i j key, (s.workers i).inFlight = some key → (s.workers j).inFlight = some key → i = j)

/-- Whether a queue item is a string, the one kind of item on which the type
assertion `key.(string)` of `ProcessNextItem` does not panic. -/
def Item.isString : Item → Bool
  | .str _ => true
  | _ => false

/-- Every key the queue knows of, ready, dirty, in flight or delayed, is a string. -/
def WorkQueue.StringKeys (q : WorkQueue) : Prop :=
  (∀ key ∈ q.queue, key.isString = true)
  ∧ (∀ key ∈ q.dirty, key.isString = true)
  ∧ (∀ key ∈ q.processing, key.isString = true)
  ∧ (∀ key ∈ q.waiting, key.isString = true)

/-- Two workers, the key `default/web` added and taken by the first of them. -/
def busySystem : System 2 :=
  { queue := { WorkQueue.empty with processing := [.str "default/web"] },
    workers := Function.update (fun _ => Worker.atGet) 0 (.atSync (.str "default/web")) }

/-! ## Concrete inputs -/

/-- An indexer that holds nothing. -/
def emptyIndexer : Indexer :=
  { GetByKey := fun _ => { item := .nil, found := false, err := none } }

/-- A controller over the work queue of section 4.2 and an empty indexer. -/
def demoController : Controller WorkQueue :=
  NewController WorkQueue.iface emptyIndexer

/-- A world with an empty queue and an empty log. -/
def freshWorld : World WorkQueue :=
  { queue := WorkQueue.empty, log := [] }

/-- A world in which the key `default/web` has failed five times already. -/
def tiredWorld : World WorkQueue :=
  { queue := { WorkQueue.empty with failures := List.replicate 5 (.str "default/web") },
    log := [] }

/-- A world whose queue hands out the key `default/web`. -/
def webWorld : World WorkQueue :=
  { queue := { WorkQueue.empty with queue := [.str "default/web"] }, log := [] }

/-- A world whose queue has been shut down. -/
def closedWorld : World WorkQueue :=
  { queue := { WorkQueue.empty with shuttingDown := true }, log := [] }

/-- An indexer whose every lookup fails. -/
def brokenIndexer : Indexer :=
  { GetByKey := fun _ => { item := .nil, found := false, err := some "store failure" } }

/-! ## Theorems -/

section Basics

variable {Q : Type}

theorem eventsSince_append (w w' : World Q) (evs : List Event) (h : w'.log = w.log ++ evs) :
    eventsSince w w' = evs := by
  simp [eventsSince, h]

theorem handleError_nil (c : Controller Q) (key : Item) (w : World Q) :
    handleError c none key w
      = { queue := c.queue.Forget w.queue key, log := w.log ++ [.queueForget key] } := rfl

theorem handleError_lt (c : Controller Q) (e : Err) (key : Item) (w : World Q)
    (h : c.queue.NumRequeues w.queue key < 5) :
    handleError c (some e) key w
      = { queue := c.queue.AddRateLimited w.queue key,
          log := w.log ++ [.queueNumRequeues key,
            .klogInfof "Error syncing deployment %v:%v" [.item key, .err e],
            .queueAddRateLimited key] } := by
  simp [handleError, World.emit, h]

theorem handleError_ge (c : Controller Q) (e : Err) (key : Item) (w : World Q)
    (h : ¬ c.queue.NumRequeues w.queue key < 5) :
    handleError c (some e) key w
      = { queue := c.queue.Forget w.queue key,
          log := w.log ++ [.queueNumRequeues key, .queueForget key, .runtimeHandleError e,
            .klogInfof "Dropping deployment %q out of queue: %v" [.item key, .err e]] } := by
  simp [handleError, World.emit, h]

theorem WorkQueue.numRequeues_forget (q : WorkQueue) (key : Item) :
    WorkQueue.iface.NumRequeues (WorkQueue.iface.Forget q key) key = 0 := by
  simp [WorkQueue.iface, WorkQueue.numRequeues, WorkQueue.forget, List.count_eq_zero]

theorem WorkQueue.numRequeues_addRateLimited (q : WorkQueue) (key : Item) :
    WorkQueue.iface.NumRequeues (WorkQueue.iface.AddRateLimited q key) key
      = WorkQueue.iface.NumRequeues q key + 1 := by
  simp [WorkQueue.iface, WorkQueue.numRequeues, WorkQueue.addRateLimited]

/-- A run of failures that stays within the retry limit re-enqueues every time. -/
theorem failRepeatedly_below_limit (c : Controller Q) (key : Item)
    (hAdd : ∀ q k, c.queue.NumRequeues (c.queue.AddRateLimited q k) k
      = c.queue.NumRequeues q k + 1) :
    ∀ (errs : List Err) (w : World Q),
      0 ≤ c.queue.NumRequeues w.queue key →
      c.queue.NumRequeues w.queue key + errs.length ≤ 5 →
      c.queue.NumRequeues (failRepeatedly c key errs w).queue key
          = c.queue.NumRequeues w.queue key + errs.length
        ∧ ∃ evs, (failRepeatedly c key errs w).log = w.log ++ evs
          ∧ evs.count (.queueAddRateLimited key) = errs.length
          ∧ (∀ k, Event.queueAddRateLimited k ∈ evs → k = key)
          ∧ (∀ k, Event.queueForget k ∉ evs)
          ∧ (∀ k, Event.queueAdd k ∉ evs)
          ∧ (∀ e, Event.runtimeHandleError e ∉ evs) := by
  intro errs
  induction errs with
  | nil =>
    intro w _ _
    exact ⟨by simp [failRepeatedly], [], by simp [failRepeatedly], by simp, by simp, by simp,
      by simp, by simp⟩
  | cons e es ih =>
    intro w h0 hle
    have hlen : ((e :: es).length : Int) = (es.length : Int) + 1 := by
      simp
    have hlt : c.queue.NumRequeues w.queue key < 5 := by
      have : (0 : Int) ≤ (es.length : Int) := Int.ofNat_nonneg _
      omega
    have hw := handleError_lt c e key w hlt
    have hq : c.queue.NumRequeues (handleError c (some e) key w).queue key
        = c.queue.NumRequeues w.queue key + 1 := by
      rw [hw]
      exact hAdd _ _
    obtain ⟨hn, evs, hlog, hcnt, hkey, hfor, hadd, herr⟩ :=
      ih (handleError c (some e) key w) (by omega) (by omega)
    refine ⟨?_, ?_⟩
    · simp only [failRepeatedly]
      rw [hn, hq]
      omega
    · refine ⟨[.queueNumRequeues key,
          .klogInfof "Error syncing deployment %v:%v" [.item key, .err e],
          .queueAddRateLimited key] ++ evs, ?_, ?_, ?_, ?_, ?_, ?_⟩
      · simp only [failRepeatedly]
        rw [hlog, hw]
        simp
      · simp [List.count_cons, hcnt]
      · intro k hk
        simp at hk
        rcases hk with hk | hk
        · exact hk
        · exact hkey k hk
      · intro k hk
        simp at hk
        exact hfor k hk
      · intro k hk
        simp at hk
        exact hadd k hk
      · intro e' he'
        simp at he'
        exact herr e' he'

theorem syncToStdout_err (c : Controller Q) (key : String) (w : World Q) (e : Err)
    (h : (c.indexer.GetByKey key).err = some e) :
    syncToStdout c key w
      = (.returned (some e),
          { queue := w.queue,
            log := w.log ++ [.indexerGetByKey key,
              .klogErrorf "Fetching object with key %s from store failed with %v"
                [.text key, .err e]] }) := by
  simp [syncToStdout, World.emit, h]

theorem syncToStdout_absent (c : Controller Q) (key : String) (w : World Q)
    (h : (c.indexer.GetByKey key).err = none) (hf : (c.indexer.GetByKey key).found = false) :
    syncToStdout c key w
      = (.returned none,
          { queue := w.queue,
            log := w.log ++ [.indexerGetByKey key,
              .fmtPrintf "Deployment %s does not exist anymore\n" [.text key]] }) := by
  simp [syncToStdout, World.emit, h, hf]

theorem syncToStdout_present (c : Controller Q) (key : String) (w : World Q) (ns name : String)
    (h : (c.indexer.GetByKey key).err = none) (hf : (c.indexer.GetByKey key).found = true)
    (hd : (c.indexer.GetByKey key).item = .deployment ns name) :
    syncToStdout c key w
      = (.returned none,
          { queue := w.queue,
            log := w.log ++ [.indexerGetByKey key,
              .fmtPrintf "Sync/Add/Update for deployment %s\n" [.text name]] }) := by
  simp [syncToStdout, World.emit, h, hf, hd, deploymentName]

theorem syncToStdout_panic (c : Controller Q) (key : String) (w : World Q)
    (h : (c.indexer.GetByKey key).err = none) (hf : (c.indexer.GetByKey key).found = true)
    (hd : deploymentName (c.indexer.GetByKey key).item = .panicked) :
    syncToStdout c key w
      = (.panicked, { queue := w.queue, log := w.log ++ [.indexerGetByKey key] }) := by
  simp [syncToStdout, World.emit, h, hf, hd]

/-- Whatever the lookup gives, `syncToStdout` leaves the queue alone, starts its
log entries with the lookup, and logs no queue call and no error report. -/
theorem syncToStdout_log (c : Controller Q) (key : String) (w : World Q) :
    ∃ evs, (syncToStdout c key w).2.log = w.log ++ Event.indexerGetByKey key :: evs
      ∧ (syncToStdout c key w).2.queue = w.queue
      ∧ (∀ k, Event.queueDone k ∉ evs)
      ∧ (∀ k, Event.queueForget k ∉ evs)
      ∧ (∀ k, Event.queueAddRateLimited k ∉ evs)
      ∧ (∀ k, Event.queueAdd k ∉ evs)
      ∧ (∀ e, Event.runtimeHandleError e ∉ evs) := by
  cases herr : (c.indexer.GetByKey key).err with
  | some e =>
    rw [syncToStdout_err c key w e herr]
    exact ⟨_, rfl, rfl, by simp, by simp, by simp, by simp, by simp⟩
  | none =>
    cases hf : (c.indexer.GetByKey key).found with
    | false =>
      rw [syncToStdout_absent c key w herr hf]
      exact ⟨_, rfl, rfl, by simp, by simp, by simp, by simp, by simp⟩
    | true =>
      cases hd : deploymentName (c.indexer.GetByKey key).item with
      | panicked =>
        rw [syncToStdout_panic c key w herr hf hd]
        exact ⟨[], rfl, rfl, by simp, by simp, by simp, by simp, by simp⟩
      | returned name =>
        have : syncToStdout c key w = (.returned none,
            { queue := w.queue,
              log := w.log ++ [.indexerGetByKey key,
                .fmtPrintf "Sync/Add/Update for deployment %s\n" [.text name]] }) := by
          simp [syncToStdout, World.emit, herr, hf, hd]
        rw [this]
        exact ⟨_, rfl, rfl, by simp, by simp, by simp, by simp, by simp⟩

/-- The calls of `handleError`: no `Done`, and at least one of `Forget(key)` and
`AddRateLimited(key)`. -/
theorem handleError_log (c : Controller Q) (err : Option Err) (key : Item) (w : World Q) :
    ∃ evs, (handleError c err key w).log = w.log ++ evs
      ∧ (∀ k, Event.queueDone k ∉ evs)
      ∧ (Event.queueForget key ∈ evs ∨ Event.queueAddRateLimited key ∈ evs) := by
  cases err with
  | none =>
    rw [handleError_nil]
    exact ⟨_, rfl, by simp, by simp⟩
  | some e =>
    by_cases h : c.queue.NumRequeues w.queue key < 5
    · rw [handleError_lt c e key w h]
      exact ⟨_, rfl, by simp, by simp⟩
    · rw [handleError_ge c e key w h]
      exact ⟨_, rfl, by simp, by simp⟩

theorem ProcessNextItem_shutdown (c : Controller Q) (w : World Q) (key : Item) (q : Q)
    (h : c.queue.Get w.queue = some ((key, true), q)) :
    ProcessNextItem c w = some (.returned false, { queue := q, log := w.log ++ [.queueGet] }) := by
  simp [ProcessNextItem, h, World.emit]

theorem ProcessNextItem_badKey (c : Controller Q) (w : World Q) (key : Item) (q : Q)
    (h : c.queue.Get w.queue = some ((key, false), q)) (hk : assertString key = .panicked) :
    ProcessNextItem c w
      = some (.panicked, deferredDone c key { queue := q, log := w.log ++ [.queueGet] }) := by
  simp [ProcessNextItem, h, World.emit, hk]

theorem ProcessNextItem_syncPanic (c : Controller Q) (w w1 : World Q) (s : String) (q : Q)
    (h : c.queue.Get w.queue = some ((.str s, false), q))
    (hs : syncToStdout c s { queue := q, log := w.log ++ [.queueGet] } = (.panicked, w1)) :
    ProcessNextItem c w = some (.panicked, deferredDone c (.str s) w1) := by
  simp [ProcessNextItem, h, World.emit, assertString, hs]

theorem ProcessNextItem_synced (c : Controller Q) (w w1 : World Q) (s : String) (q : Q)
    (err : Option Err)
    (h : c.queue.Get w.queue = some ((.str s, false), q))
    (hs : syncToStdout c s { queue := q, log := w.log ++ [.queueGet] } = (.returned err, w1)) :
    ProcessNextItem c w
      = some (.returned true, deferredDone c (.str s) (handleError c err (.str s) w1)) := by
  simp [ProcessNextItem, h, World.emit, assertString, hs]

theorem startWorkers_spec (n : Nat) (w : World Q) :
    startWorkers n w
      = { queue := w.queue, log := w.log ++ List.replicate n .goWaitUntilRunWorker } := by
  induction n generalizing w with
  | zero => simp [startWorkers]
  | succ n ih =>
    rw [startWorkers, ih]
    simp [World.emit, List.replicate_succ]

/-- The queue that `handleError` leaves: the result of the one queue call it makes. -/
theorem handleError_queue (c : Controller Q) (err : Option Err) (key : Item) (w : World Q) :
    (handleError c err key w).queue
      = match err with
        | none => c.queue.Forget w.queue key
        | some _ =>
          if c.queue.NumRequeues w.queue key < 5 then c.queue.AddRateLimited w.queue key
          else c.queue.Forget w.queue key := by
  cases err with
  | none => rw [handleError_nil]
  | some e =>
    by_cases h : c.queue.NumRequeues w.queue key < 5
    · rw [handleError_lt c e key w h]
      simp [h]
    · rw [handleError_ge c e key w h]
      simp [h]

/-- One failing attempt below the retry limit: the key is taken, the lookup fails,
the key is re-enqueued rate limited and given back, and after the delay it is
ready again with one more failure on record. -/
theorem attempt_fails_below_limit (indexer : Indexer) (s : String) (e : Err)
    (herr : (indexer.GetByKey s).err = some e) (m : Nat) (hm : m < 5) (log : List Event) :
    attempt (NewController WorkQueue.iface indexer) (.str s)
        { queue := retryQueue (.str s) m, log := log }
      = some { queue := retryQueue (.str s) (m + 1),
               log := log ++ [.queueGet, .indexerGetByKey s,
                 .klogErrorf "Fetching object with key %s from store failed with %v"
                   [.text s, .err e],
                 .queueNumRequeues (.str s),
                 .klogInfof "Error syncing deployment %v:%v" [.item (.str s), .err e],
                 .queueAddRateLimited (.str s), .queueDone (.str s)] } := by
  have hg : (NewController WorkQueue.iface indexer).queue.Get (retryQueue (.str s) m)
      = some ((.str s, false),
          { retryQueue (.str s) m with queue := [], processing := [.str s] }) := by
    simp [NewController, WorkQueue.iface, WorkQueue.get, retryQueue]
  have hs := syncToStdout_err (NewController WorkQueue.iface indexer) s
    { queue := { retryQueue (.str s) m with queue := [], processing := [.str s] },
      log := log ++ [.queueGet] } e herr
  have hp := ProcessNextItem_synced (NewController WorkQueue.iface indexer)
    { queue := retryQueue (.str s) m, log := log } _ s _ _ hg hs
  have hlt : (NewController WorkQueue.iface indexer).queue.NumRequeues
      { retryQueue (.str s) m with queue := [], processing := [.str s] } (.str s) < 5 := by
    simp [NewController, WorkQueue.iface, WorkQueue.numRequeues, retryQueue]
    omega
  rw [handleError_lt _ e (.str s) _ hlt] at hp
  unfold attempt
  rw [hp]
  simp [deferredDone, World.emit, NewController, WorkQueue.iface, WorkQueue.done,
    WorkQueue.addRateLimited, WorkQueue.elapse, WorkQueue.fire, WorkQueue.add, retryQueue,
    List.replicate_succ]

/-- The failing attempt at the retry limit: the key is taken, the lookup fails, the
key is forgotten and given back, and the queue is empty again. -/
theorem attempt_fails_at_limit (indexer : Indexer) (s : String) (e : Err)
    (herr : (indexer.GetByKey s).err = some e) (log : List Event) :
    ProcessNextItem (NewController WorkQueue.iface indexer)
        { queue := retryQueue (.str s) 5, log := log }
      = some (.returned true,
          { queue := WorkQueue.empty,
            log := log ++ [.queueGet, .indexerGetByKey s,
              .klogErrorf "Fetching object with key %s from store failed with %v"
                [.text s, .err e],
              .queueNumRequeues (.str s), .queueForget (.str s), .runtimeHandleError e,
              .klogInfof "Dropping deployment %q out of queue: %v" [.item (.str s), .err e],
              .queueDone (.str s)] }) := by
  have hg : (NewController WorkQueue.iface indexer).queue.Get (retryQueue (.str s) 5)
      = some ((.str s, false),
          { retryQueue (.str s) 5 with queue := [], processing := [.str s] }) := by
    simp [NewController, WorkQueue.iface, WorkQueue.get, retryQueue]
  have hs := syncToStdout_err (NewController WorkQueue.iface indexer) s
    { queue := { retryQueue (.str s) 5 with queue := [], processing := [.str s] },
      log := log ++ [.queueGet] } e herr
  have hp := ProcessNextItem_synced (NewController WorkQueue.iface indexer)
    { queue := retryQueue (.str s) 5, log := log } _ s _ _ hg hs
  have hge : ¬ (NewController WorkQueue.iface indexer).queue.NumRequeues
      { retryQueue (.str s) 5 with queue := [], processing := [.str s] } (.str s) < 5 := by
    simp [NewController, WorkQueue.iface, WorkQueue.numRequeues, retryQueue]
  rw [handleError_ge _ e (.str s) _ hge] at hp
  rw [hp]
  simp [deferredDone, World.emit, NewController, WorkQueue.iface, WorkQueue.done,
    WorkQueue.forget, WorkQueue.empty, retryQueue, List.replicate_succ]

/-- The attempts on a key whose lookup always fails, while they stay within the
retry limit: each takes the key once and re-enqueues it once. -/
theorem attempts_below_limit (indexer : Indexer) (s : String) (e : Err)
    (herr : (indexer.GetByKey s).err = some e) :
    ∀ (n m : Nat) (log : List Event), m + n ≤ 5 →
      ∃ evs, attempts (NewController WorkQueue.iface indexer) (.str s) n
            { queue := retryQueue (.str s) m, log := log }
          = some { queue := retryQueue (.str s) (m + n), log := log ++ evs }
        ∧ evs.count .queueGet = n
        ∧ evs.count (.queueAddRateLimited (.str s)) = n
        ∧ evs.count (.queueDone (.str s)) = n
        ∧ (∀ k, Event.queueForget k ∉ evs)
        ∧ (∀ k, Event.queueAdd k ∉ evs)
        ∧ (∀ e', Event.runtimeHandleError e' ∉ evs) := by
  intro n
  induction n with
  | zero =>
    intro m log _
    exact ⟨[], by simp [attempts], by simp, by simp, by simp, by simp, by simp, by simp⟩
  | succ n ih =>
    intro m log hle
    obtain ⟨evs, hrun, hget, hadd, hdone, hfor, hnoadd, herrs⟩ :=
      ih (m + 1) (log ++ [.queueGet, .indexerGetByKey s,
        .klogErrorf "Fetching object with key %s from store failed with %v"
          [.text s, .err e],
        .queueNumRequeues (.str s),
        .klogInfof "Error syncing deployment %v:%v" [.item (.str s), .err e],
        .queueAddRateLimited (.str s), .queueDone (.str s)]) (by omega)
    refine ⟨[.queueGet, .indexerGetByKey s,
        .klogErrorf "Fetching object with key %s from store failed with %v"
          [.text s, .err e],
        .queueNumRequeues (.str s),
        .klogInfof "Error syncing deployment %v:%v" [.item (.str s), .err e],
        .queueAddRateLimited (.str s), .queueDone (.str s)] ++ evs, ?_, ?_, ?_, ?_, ?_, ?_, ?_⟩
    · simp only [attempts]
      rw [attempt_fails_below_limit indexer s e herr m (by omega) log]
      simp only
      rw [hrun]
      simp [Nat.add_assoc, Nat.add_comm 1 n]
    · simp [List.count_cons, hget]
    · simp [List.count_cons, hadd]
    · simp [List.count_cons, hdone]
    · intro k hk
      simp at hk
      exact hfor k hk
    · intro k hk
      simp at hk
      exact hnoadd k hk
    · intro e' he'
      simp at he'
      exact herrs e' he'

end Basics

/-- C1: for every key and every non-nil error, when `NumRequeues(key) < 5` the
call `handleError(err, key)` calls `AddRateLimited` exactly once, with that key
and no other, and calls neither `Forget` nor the error sink. -/
theorem handleError_requeues_below_limit {Q : Type} (c : Controller Q) (w : World Q)
    (key : Item) (e : Err) (h : c.queue.NumRequeues w.queue key < 5) :
    (handleError c (some e) key w).log = w.log ++ eventsSince w (handleError c (some e) key w)
    ∧ (eventsSince w (handleError c (some e) key w)).count (.queueAddRateLimited key) = 1
    ∧ (∀ k, Event.queueAddRateLimited k ∈ eventsSince w (handleError c (some e) key w) → k = key)
    ∧ (∀ k, Event.queueForget k ∉ eventsSince w (handleError c (some e) key w))
    ∧ (∀ e', Event.runtimeHandleError e' ∉ eventsSince w (handleError c (some e) key w))
    ∧ (handleError c (some e) key w).queue = c.queue.AddRateLimited w.queue key := by
  have hw := handleError_lt c e key w h
  have hs := eventsSince_append w (handleError c (some e) key w) _ (by rw [hw])
  rw [hs]
  refine ⟨by rw [hw], ?_, ?_, ?_, ?_, by rw [hw]⟩
  · simp [List.count_cons]
  · intro k hk
    simpa using hk
  · intro k hk
    simp at hk
  · intro e' he'
    simp at he'

/-- C2: for every key and every non-nil error, when `NumRequeues(key) >= 5` the
call `handleError(err, key)` calls `Forget(key)` exactly once, hands that same error
to the error sink exactly once, and calls neither `AddRateLimited` nor `Add`. -/
theorem handleError_gives_up_at_limit {Q : Type} (c : Controller Q) (w : World Q)
    (key : Item) (e : Err) (h : 5 ≤ c.queue.NumRequeues w.queue key) :
    (handleError c (some e) key w).log = w.log ++ eventsSince w (handleError c (some e) key w)
    ∧ (eventsSince w (handleError c (some e) key w)).count (.queueForget key) = 1
    ∧ (∀ k, Event.queueForget k ∈ eventsSince w (handleError c (some e) key w) → k = key)
    ∧ (eventsSince w (handleError c (some e) key w)).count (.runtimeHandleError e) = 1
    ∧ (∀ e', Event.runtimeHandleError e' ∈ eventsSince w (handleError c (some e) key w) → e' = e)
    ∧ (∀ k, Event.queueAddRateLimited k ∉ eventsSince w (handleError c (some e) key w))
    ∧ (∀ k, Event.queueAdd k ∉ eventsSince w (handleError c (some e) key w))
    ∧ (handleError c (some e) key w).queue = c.queue.Forget w.queue key := by
  have hw := handleError_ge c e key w (not_lt.mpr h)
  have hs := eventsSince_append w (handleError c (some e) key w) _ (by rw [hw])
  rw [hs]
  refine ⟨by rw [hw], ?_, ?_, ?_, ?_, ?_, ?_, by rw [hw]⟩
  · simp [List.count_cons]
  · intro k hk
    simpa using hk
  · simp [List.count_cons]
  · intro e' he'
    simpa using he'
  · intro k hk
    simp at hk
  · intro k hk
    simp at hk

/-- C2, at a key that has failed five times: the sixth failure gives up. -/
theorem handleError_gives_up_at_limit_witness :
    (5 : Int) ≤ demoController.queue.NumRequeues tiredWorld.queue (.str "default/web")
    ∧ (eventsSince tiredWorld
        (handleError demoController (some "boom") (.str "default/web") tiredWorld)).count
          (.queueForget (.str "default/web")) = 1 :=
  ⟨by decide,
   (handleError_gives_up_at_limit demoController tiredWorld (.str "default/web") "boom"
      (by decide)).2.1⟩

/-- C1, at a key without failure history: the first failure is re-enqueued. -/
theorem handleError_requeues_below_limit_witness :
    demoController.queue.NumRequeues freshWorld.queue (.str "default/web") < 5
    ∧ (eventsSince freshWorld
        (handleError demoController (some "boom") (.str "default/web") freshWorld)).count
          (.queueAddRateLimited (.str "default/web")) = 1 :=
  ⟨by decide,
   (handleError_requeues_below_limit demoController freshWorld (.str "default/web") "boom"
      (by decide)).2.1⟩

/-- C3: for every key and every failure history, `handleError(nil, key)` calls
`Forget(key)` exactly once and calls neither `AddRateLimited` nor the error sink.
With a queue whose `Forget` resets the counter of the key, `NumRequeues(key)` is 0
right afterwards, and a later failure of the same key is handled as a first
failure (it is re-enqueued, never given up on, and the count after it is 1 on a
queue that counts the `AddRateLimited` calls), whatever the earlier count was. -/
theorem handleError_success_resets_history {Q : Type} (c : Controller Q) (w : World Q)
    (key : Item)
    (hForget : ∀ q k, c.queue.NumRequeues (c.queue.Forget q k) k = 0) :
    (handleError c none key w).log = w.log ++ eventsSince w (handleError c none key w)
    ∧ (eventsSince w (handleError c none key w)).count (.queueForget key) = 1
    ∧ (∀ k, Event.queueForget k ∈ eventsSince w (handleError c none key w) → k = key)
    ∧ (∀ k, Event.queueAddRateLimited k ∉ eventsSince w (handleError c none key w))
    ∧ (∀ e, Event.runtimeHandleError e ∉ eventsSince w (handleError c none key w))
    ∧ c.queue.NumRequeues (handleError c none key w).queue key = 0
    ∧ ∀ e : Err,
        eventsSince (handleError c none key w)
            (handleError c (some e) key (handleError c none key w))
          = [.queueNumRequeues key,
              .klogInfof "Error syncing deployment %v:%v" [.item key, .err e],
              .queueAddRateLimited key]
        ∧ (handleError c (some e) key (handleError c none key w)).queue
          = c.queue.AddRateLimited (c.queue.Forget w.queue key) key
        ∧ ((∀ q k, c.queue.NumRequeues (c.queue.AddRateLimited q k) k
              = c.queue.NumRequeues q k + 1) →
            c.queue.NumRequeues
              (handleError c (some e) key (handleError c none key w)).queue key = 1) := by
  have hw := handleError_nil c key w
  have hs := eventsSince_append w (handleError c none key w) _ (by rw [hw])
  have h0 : c.queue.NumRequeues (handleError c none key w).queue key = 0 := by
    rw [hw]
    exact hForget _ _
  rw [hs]
  refine ⟨by rw [hw], by simp, ?_, ?_, ?_, h0, ?_⟩
  · intro k hk
    simpa using hk
  · intro k hk
    simp at hk
  · intro e he
    simp at he
  · intro e
    have hlt : c.queue.NumRequeues (handleError c none key w).queue key < 5 := by
      rw [h0]
      decide
    have hw2 := handleError_lt c e key (handleError c none key w) hlt
    refine ⟨eventsSince_append _ _ _ (by rw [hw2]), by rw [hw2, hw], ?_⟩
    intro hAdd
    rw [hw2]
    show c.queue.NumRequeues
      (c.queue.AddRateLimited (handleError c none key w).queue key) key = 1
    rw [hAdd, h0]
    decide

/-- C3, at a key that had failed five times before it succeeded. -/
theorem handleError_success_resets_history_witness :
    demoController.queue.NumRequeues tiredWorld.queue (.str "default/web") = 5
    ∧ demoController.queue.NumRequeues
        (handleError demoController none (.str "default/web") tiredWorld).queue
        (.str "default/web") = 0 :=
  ⟨by decide,
   (handleError_success_resets_history demoController tiredWorld (.str "default/web")
      WorkQueue.numRequeues_forget).2.2.2.2.2.1⟩

/-- C4: a key without failure history whose reconcile fails every time, on a queue
whose `NumRequeues(key)` goes up by one with every `AddRateLimited(key)`: the
first five `handleError` calls re-enqueue the key with `AddRateLimited`, five times
in all and without any `Forget`; the sixth failure calls `Forget(key)`, reports
the error, and re-enqueues nothing. On the work queue of section 4.2 the whole
run is: the key is added once; five attempts (`Get`, failed lookup,
`AddRateLimited`, `Done`, delay) follow one another; the sixth attempt forgets
the key and leaves the queue empty, with nothing ready, nothing delayed and
nothing dirty, so that `Get` hands out nothing and no further attempt happens;
a new `Add` of the key makes it ready again. -/
theorem always_failing_key_is_retried_five_times {Q : Type} (c : Controller Q) (w : World Q)
    (key : Item) (errs : List Err) (e6 : Err)
    (hAdd : ∀ q k, c.queue.NumRequeues (c.queue.AddRateLimited q k) k
      = c.queue.NumRequeues q k + 1)
    (h0 : c.queue.NumRequeues w.queue key = 0) (hlen : errs.length = 5) :
    (failRepeatedly c key errs w).log = w.log ++ eventsSince w (failRepeatedly c key errs w)
    ∧ (eventsSince w (failRepeatedly c key errs w)).count (.queueAddRateLimited key) = 5
    ∧ (∀ k, Event.queueAddRateLimited k ∈ eventsSince w (failRepeatedly c key errs w) → k = key)
    ∧ (∀ k, Event.queueForget k ∉ eventsSince w (failRepeatedly c key errs w))
    ∧ (∀ e, Event.runtimeHandleError e ∉ eventsSince w (failRepeatedly c key errs w))
    ∧ c.queue.NumRequeues (failRepeatedly c key errs w).queue key = 5
    ∧ eventsSince (failRepeatedly c key errs w)
          (handleError c (some e6) key (failRepeatedly c key errs w))
        = [.queueNumRequeues key, .queueForget key, .runtimeHandleError e6,
            .klogInfof "Dropping deployment %q out of queue: %v" [.item key, .err e6]]
    ∧ (∀ k, Event.queueAddRateLimited k ∉ eventsSince (failRepeatedly c key errs w)
          (handleError c (some e6) key (failRepeatedly c key errs w)))
    ∧ (∀ k, Event.queueAdd k ∉ eventsSince (failRepeatedly c key errs w)
          (handleError c (some e6) key (failRepeatedly c key errs w)))
    ∧ (eventsSince w (handleError c (some e6) key (failRepeatedly c key errs w))).count
          (.queueAddRateLimited key) = 5
    ∧ ∀ (indexer : Indexer) (s : String) (e : Err) (log : List Event),
        (indexer.GetByKey s).err = some e →
        ∃ w5 evs,
          attempts (NewController WorkQueue.iface indexer) (.str s) 5
              { queue := WorkQueue.iface.Add WorkQueue.empty (.str s), log := log } = some w5
          ∧ w5.log = log ++ evs
          ∧ evs.count .queueGet = 5
          ∧ evs.count (.queueAddRateLimited (.str s)) = 5
          ∧ (∀ k, Event.queueForget k ∉ evs)
          ∧ ProcessNextItem (NewController WorkQueue.iface indexer) w5
              = some (.returned true,
                  { queue := WorkQueue.empty,
                    log := w5.log ++ [.queueGet, .indexerGetByKey s,
                      .klogErrorf "Fetching object with key %s from store failed with %v"
                        [.text s, .err e],
                      .queueNumRequeues (.str s), .queueForget (.str s),
                      .runtimeHandleError e,
                      .klogInfof "Dropping deployment %q out of queue: %v"
                        [.item (.str s), .err e],
                      .queueDone (.str s)] })
          ∧ (∀ log', ProcessNextItem (NewController WorkQueue.iface indexer)
                { queue := WorkQueue.empty, log := log' } = none)
          ∧ WorkQueue.empty.elapse (.str s) = WorkQueue.empty
          ∧ (WorkQueue.iface.Get (WorkQueue.iface.Add WorkQueue.empty (.str s))).map Prod.fst
              = some (.str s, false) := by
  obtain ⟨hn, evs, hlog, hcnt, hkey, hfor, _, herr⟩ :=
    failRepeatedly_below_limit c key hAdd errs w (by rw [h0]) (by rw [h0, hlen]; decide)
  have hn5 : c.queue.NumRequeues (failRepeatedly c key errs w).queue key = 5 := by
    rw [hn, h0, hlen]
    decide
  have hs := eventsSince_append w (failRepeatedly c key errs w) evs hlog
  have hge : ¬ c.queue.NumRequeues (failRepeatedly c key errs w).queue key < 5 := by
    rw [hn5]
    decide
  have hw6 := handleError_ge c e6 key (failRepeatedly c key errs w) hge
  have hs6 := eventsSince_append (failRepeatedly c key errs w)
    (handleError c (some e6) key (failRepeatedly c key errs w)) _ (by rw [hw6])
  have hs06 := eventsSince_append w
    (handleError c (some e6) key (failRepeatedly c key errs w))
    (evs ++ [.queueNumRequeues key, .queueForget key, .runtimeHandleError e6,
      .klogInfof "Dropping deployment %q out of queue: %v" [.item key, .err e6]])
    (by rw [hw6, hlog]; simp)
  rw [hs, hs6, hs06]
  refine ⟨hlog, by rw [hcnt, hlen], hkey, hfor, herr, hn5, rfl, ?_, ?_, ?_, ?_⟩
  · intro k hk
    simp at hk
  · intro k hk
    simp at hk
  · simp [List.count_cons, hcnt, hlen]
  · intro indexer s e log hlookup
    obtain ⟨evs5, hrun, hget, hadd, _, hfor5, _, _⟩ :=
      attempts_below_limit indexer s e hlookup 5 0 log (by omega)
    have hstart : WorkQueue.iface.Add WorkQueue.empty (.str s) = retryQueue (.str s) 0 := by
      simp [WorkQueue.iface, WorkQueue.add, WorkQueue.empty, retryQueue]
    refine ⟨{ queue := retryQueue (.str s) 5, log := log ++ evs5 }, evs5, ?_, rfl, hget, hadd,
      hfor5, attempt_fails_at_limit indexer s e hlookup (log ++ evs5), ?_, ?_, ?_⟩
    · rw [hstart, hrun]
    · intro log'
      simp [ProcessNextItem, NewController, WorkQueue.iface, WorkQueue.get, WorkQueue.empty]
    · simp [WorkQueue.elapse, WorkQueue.empty]
    · simp [WorkQueue.iface, WorkQueue.add, WorkQueue.get, WorkQueue.empty]

/-- C4, at the key `default/web` on the work queue of section 4.2. -/
theorem always_failing_key_is_retried_five_times_witness :
    demoController.queue.NumRequeues freshWorld.queue (.str "default/web") = 0
    ∧ ["e1", "e2", "e3", "e4", "e5"].length = 5
    ∧ (eventsSince freshWorld
        (failRepeatedly demoController (.str "default/web") ["e1", "e2", "e3", "e4", "e5"]
          freshWorld)).count (.queueAddRateLimited (.str "default/web")) = 5
    ∧ (brokenIndexer.GetByKey "default/web").err = some "store failure"
    ∧ ∃ w5 w6,
        attempts (NewController WorkQueue.iface brokenIndexer) (.str "default/web") 5
            { queue := WorkQueue.iface.Add WorkQueue.empty (.str "default/web"), log := [] }
          = some w5
        ∧ ProcessNextItem (NewController WorkQueue.iface brokenIndexer) w5
          = some (.returned true, w6)
        ∧ w6.queue = WorkQueue.empty
        ∧ ProcessNextItem (NewController WorkQueue.iface brokenIndexer) w6 = none :=
  ⟨by decide, by decide,
   (always_failing_key_is_retried_five_times demoController freshWorld (.str "default/web")
      ["e1", "e2", "e3", "e4", "e5"] "e6" WorkQueue.numRequeues_addRateLimited
      (by decide) (by decide)).2.1,
   rfl,
   let ⟨w5, _, h1, _, _, _, _, h6, h7, _⟩ :=
     (always_failing_key_is_retried_five_times demoController freshWorld (.str "default/web")
        ["e1", "e2", "e3", "e4", "e5"] "e6" WorkQueue.numRequeues_addRateLimited
        (by decide) (by decide)).2.2.2.2.2.2.2.2.2.2 brokenIndexer "default/web"
        "store failure" [] rfl
   ⟨w5, _, h1, h6, rfl, h7 _⟩⟩

/-- C5: `ProcessNextItem` returns false if and only if `queue.Get` reports
shutdown, and then `Get` is the only call it makes (no cache lookup, no
`handleError`, no `Done`, `Forget` or `AddRateLimited`), so that `runWorker` leaves
its loop. In every other case it returns true, whatever the reconcile outcome, on
the values the program hands to it: the keys in the queue are strings (the
handlers and `handleError` enqueue nothing else) and the objects in the cache are
Deployments (the informer and `main` store nothing else). The call does not
return only while `Get` blocks. -/
theorem ProcessNextItem_return_value {Q : Type} (c : Controller Q) (w : World Q) :
    ((∃ w', ProcessNextItem c w = some (.returned false, w'))
        ↔ ∃ key q, c.queue.Get w.queue = some ((key, true), q))
    ∧ (∀ key q, c.queue.Get w.queue = some ((key, true), q) →
        ProcessNextItem c w
            = some (.returned false, { queue := q, log := w.log ++ [.queueGet] })
          ∧ ∀ fuel, runWorker c (fuel + 1) w
            = (.exited, { queue := q, log := w.log ++ [.queueGet] }))
    ∧ (∀ key q, c.queue.Get w.queue = some ((key, false), q) →
        (∃ s, key = .str s
          ∧ ((c.indexer.GetByKey s).err = none → (c.indexer.GetByKey s).found = true →
              ∃ ns name, (c.indexer.GetByKey s).item = .deployment ns name)) →
        ∃ w', ProcessNextItem c w = some (.returned true, w'))
    ∧ (∀ s q err w1, c.queue.Get w.queue = some ((.str s, false), q) →
        syncToStdout c s { queue := q, log := w.log ++ [.queueGet] } = (.returned err, w1) →
        ∃ w', ProcessNextItem c w = some (.returned true, w'))
    ∧ (ProcessNextItem c w = none ↔ c.queue.Get w.queue = none) := by
  refine ⟨⟨?_, ?_⟩, ?_, ?_, ?_, ⟨?_, ?_⟩⟩
  · rintro ⟨w', hw'⟩
    cases hg : c.queue.Get w.queue with
    | none => simp [ProcessNextItem, hg] at hw'
    | some r =>
      obtain ⟨⟨key, quit⟩, q⟩ := r
      cases quit with
      | true => exact ⟨key, q, rfl⟩
      | false =>
        exfalso
        cases hk : assertString key with
        | panicked =>
          rw [ProcessNextItem_badKey c w key q hg hk] at hw'
          simp at hw'
        | returned s =>
          have hkey : key = .str s := by
            cases key <;> simp [assertString] at hk
            rw [hk]
          subst hkey
          cases hs : syncToStdout c s { queue := q, log := w.log ++ [.queueGet] } with
          | mk out w1 =>
            cases out with
            | panicked =>
              rw [ProcessNextItem_syncPanic c w w1 s q hg hs] at hw'
              simp at hw'
            | returned err =>
              rw [ProcessNextItem_synced c w w1 s q err hg hs] at hw'
              simp at hw'
  · rintro ⟨key, q, hg⟩
    exact ⟨_, ProcessNextItem_shutdown c w key q hg⟩
  · intro key q hg
    refine ⟨ProcessNextItem_shutdown c w key q hg, ?_⟩
    intro fuel
    simp [runWorker, ProcessNextItem_shutdown c w key q hg]
  · intro key q hg hwell
    obtain ⟨s, hkey, hobj⟩ := hwell
    subst hkey
    cases herr : (c.indexer.GetByKey s).err with
    | some e =>
      exact ⟨_, ProcessNextItem_synced c w _ s q _ hg (syncToStdout_err c s _ e herr)⟩
    | none =>
      cases hf : (c.indexer.GetByKey s).found with
      | false =>
        exact ⟨_, ProcessNextItem_synced c w _ s q _ hg (syncToStdout_absent c s _ herr hf)⟩
      | true =>
        obtain ⟨ns, name, h⟩ := hobj herr hf
        exact ⟨_, ProcessNextItem_synced c w _ s q _ hg
          (syncToStdout_present c s _ ns name herr hf h)⟩
  · intro s q err w1 hg hs
    exact ⟨_, ProcessNextItem_synced c w w1 s q err hg hs⟩
  · intro hnone
    cases hg : c.queue.Get w.queue with
    | none => rfl
    | some r =>
      exfalso
      obtain ⟨⟨key, quit⟩, q⟩ := r
      cases quit with
      | true =>
        rw [ProcessNextItem_shutdown c w key q hg] at hnone
        simp at hnone
      | false =>
        cases hk : assertString key with
        | panicked =>
          rw [ProcessNextItem_badKey c w key q hg hk] at hnone
          simp at hnone
        | returned s =>
          have hkey : key = .str s := by
            cases key <;> simp [assertString] at hk
            rw [hk]
          subst hkey
          cases hs : syncToStdout c s { queue := q, log := w.log ++ [.queueGet] } with
          | mk out w1 =>
            cases out with
            | panicked =>
              rw [ProcessNextItem_syncPanic c w w1 s q hg hs] at hnone
              simp at hnone
            | returned err =>
              rw [ProcessNextItem_synced c w w1 s q err hg hs] at hnone
              simp at hnone
  · intro hg
    simp [ProcessNextItem, hg]

/-- C5, at a queue that holds the key `default/web` and a cache without it. -/
theorem ProcessNextItem_return_value_witness :
    demoController.queue.Get webWorld.queue
        = some ((.str "default/web", false),
            { WorkQueue.empty with processing := [.str "default/web"] })
    ∧ ∃ w', ProcessNextItem demoController webWorld = some (.returned true, w') :=
  ⟨by decide,
   (ProcessNextItem_return_value demoController webWorld).2.2.1 (.str "default/web")
    { WorkQueue.empty with processing := [.str "default/web"] } (by decide)
    ⟨"default/web", rfl, fun _ hfound => absurd hfound (by decide)⟩⟩

/-- C6: for every key that `queue.Get` hands out without shutdown, `ProcessNextItem`
calls `queue.Done` exactly once, with that key, as its last call: the log ends in
that call and the queue it leaves is `Done(key)` applied to the queue that the
calls before it left. When the reconcile returns, with or without an error, the
cache lookup and the `Forget` or `AddRateLimited` call of `handleError` come before
that `Done`, in the log and in the queue. -/
theorem ProcessNextItem_done_once_and_last {Q : Type} (c : Controller Q) (w : World Q)
    (key : Item) (q : Q) (h : c.queue.Get w.queue = some ((key, false), q)) :
    ∃ out w' evs, ProcessNextItem c w = some (out, w')
      ∧ w'.log = w.log ++ (Event.queueGet :: evs ++ [Event.queueDone key])
      ∧ (∀ k, Event.queueDone k ∉ evs)
      ∧ (eventsSince w w').count (.queueDone key) = 1
      ∧ (∀ k, Event.queueDone k ∈ eventsSince w w' → k = key)
      ∧ (out = .panicked → w'.queue = c.queue.Done q key)
      ∧ ∀ s err w1, key = .str s →
          syncToStdout c s { queue := q, log := w.log ++ [.queueGet] } = (.returned err, w1) →
          out = .returned true
          ∧ Event.indexerGetByKey s ∈ evs
          ∧ (Event.queueForget key ∈ evs ∨ Event.queueAddRateLimited key ∈ evs)
          ∧ w'.queue = c.queue.Done
              (match err with
                | none => c.queue.Forget q key
                | some _ =>
                  if c.queue.NumRequeues q key < 5 then c.queue.AddRateLimited q key
                  else c.queue.Forget q key) key
          ∧ w' = deferredDone c key (handleError c err key w1) := by
  have key_facts : ∀ (out : Outcome Bool) (w' : World Q) (evs : List Event),
      w'.log = w.log ++ (Event.queueGet :: evs ++ [Event.queueDone key]) →
      (∀ k, Event.queueDone k ∉ evs) →
      (eventsSince w w').count (.queueDone key) = 1
        ∧ (∀ k, Event.queueDone k ∈ eventsSince w w' → k = key) := by
    intro _ w' evs hlog hno
    rw [eventsSince_append w w' _ hlog]
    constructor
    · have h0 : evs.count (.queueDone key) = 0 := List.count_eq_zero.mpr (hno key)
      simp [List.count_cons, List.count_append, h0]
    · intro k hk
      simp at hk
      rcases hk with hk | hk
      · exact absurd hk (hno k)
      · exact hk
  cases hk : assertString key with
  | panicked =>
    have hp := ProcessNextItem_badKey c w key q h hk
    have hlog : (deferredDone c key { queue := q, log := w.log ++ [.queueGet] }).log
        = w.log ++ (Event.queueGet :: [] ++ [Event.queueDone key]) := by
      simp [deferredDone, World.emit]
    have hno : ∀ k, Event.queueDone k ∉ ([] : List Event) := by simp
    obtain ⟨h1, h2⟩ := key_facts .panicked _ [] hlog hno
    refine ⟨.panicked, _, [], hp, hlog, hno, h1, h2, fun _ => rfl, ?_⟩
    intro s err w1 hs
    rw [hs] at hk
    simp [assertString] at hk
  | returned s =>
    have hkey : key = .str s := by
      cases key <;> simp [assertString] at hk
      rw [hk]
    subst hkey
    obtain ⟨evs1, hlog1, hq1, hno1, _, _, _, _⟩ :=
      syncToStdout_log c s { queue := q, log := w.log ++ [.queueGet] }
    cases hs : syncToStdout c s { queue := q, log := w.log ++ [.queueGet] } with
    | mk out1 w1 =>
      rw [hs] at hlog1 hq1
      simp only at hlog1 hq1
      cases out1 with
      | panicked =>
        have hp := ProcessNextItem_syncPanic c w w1 s q h hs
        have hlog : (deferredDone c (.str s) w1).log
            = w.log ++ (Event.queueGet :: (Event.indexerGetByKey s :: evs1)
                ++ [Event.queueDone (.str s)]) := by
          simp [deferredDone, World.emit, hlog1]
        have hno : ∀ k, Event.queueDone k ∉ (Event.indexerGetByKey s :: evs1) := by
          intro k hk'
          simp at hk'
          exact hno1 k hk'
        obtain ⟨h1, h2⟩ := key_facts .panicked _ _ hlog hno
        refine ⟨.panicked, _, _, hp, hlog, hno, h1, h2, ?_, ?_⟩
        · intro _
          show c.queue.Done w1.queue (.str s) = c.queue.Done q (.str s)
          rw [hq1]
        intro s' err w1' hs' hsync
        have : s' = s := by
          injection hs' with h'
          exact h'.symm
        subst this
        rw [hs] at hsync
        simp at hsync
      | returned err =>
        have hp := ProcessNextItem_synced c w w1 s q err h hs
        obtain ⟨evs2, hlog2, hno2, hcall⟩ := handleError_log c err (.str s) w1
        have hlog : (deferredDone c (.str s) (handleError c err (.str s) w1)).log
            = w.log ++ (Event.queueGet :: ((Event.indexerGetByKey s :: evs1) ++ evs2)
                ++ [Event.queueDone (.str s)]) := by
          simp [deferredDone, World.emit, hlog2, hlog1]
        have hno : ∀ k, Event.queueDone k ∉ ((Event.indexerGetByKey s :: evs1) ++ evs2) := by
          intro k hk'
          simp at hk'
          rcases hk' with hk' | hk'
          · exact hno1 k hk'
          · exact hno2 k hk'
        obtain ⟨h1, h2⟩ := key_facts (.returned true) _ _ hlog hno
        refine ⟨.returned true, _, _, hp, hlog, hno, h1, h2, ?_, ?_⟩
        · intro hpanic
          cases hpanic
        intro s' err' w1' hs' hsync
        have : s' = s := by
          injection hs' with h'
          exact h'.symm
        subst this
        rw [hs] at hsync
        have he : err = err' := by
          injection hsync with ho _
          injection ho
        have hw : w1 = w1' := by
          injection hsync
        subst he
        subst hw
        refine ⟨rfl, by simp, ?_, ?_, rfl⟩
        · rcases hcall with hc | hc
          · exact Or.inl (by simp [hc])
          · exact Or.inr (by simp [hc])
        · show c.queue.Done (handleError c err (.str s') w1).queue (.str s') = _
          rw [handleError_queue, hq1]

/-- C6, at a queue that holds the key `default/web` and a cache whose lookups fail. -/
theorem ProcessNextItem_done_once_and_last_witness :
    (NewController WorkQueue.iface brokenIndexer).queue.Get webWorld.queue
        = some ((.str "default/web", false),
            { WorkQueue.empty with processing := [.str "default/web"] })
    ∧ ∃ out w' evs, ProcessNextItem (NewController WorkQueue.iface brokenIndexer) webWorld
          = some (out, w')
        ∧ w'.log = webWorld.log ++ (Event.queueGet :: evs
            ++ [Event.queueDone (.str "default/web")])
        ∧ (∀ k, Event.queueDone k ∉ evs)
        ∧ w'.queue = { WorkQueue.empty with failures := [.str "default/web"],
                                             waiting := [.str "default/web"] } :=
  ⟨by decide,
   let ⟨out, w', evs, h1, h2, h3, _, _, _, h7⟩ :=
     ProcessNextItem_done_once_and_last (NewController WorkQueue.iface brokenIndexer) webWorld
       (.str "default/web") { WorkQueue.empty with processing := [.str "default/web"] }
       (by decide)
   ⟨out, w', evs, h1, h2, h3,
    (h7 "default/web" (some "store failure")
      { queue := { WorkQueue.empty with processing := [.str "default/web"] },
        log := [.queueGet, .indexerGetByKey "default/web",
          .klogErrorf "Fetching object with key %s from store failed with %v"
            [.text "default/web", .err "store failure"]] }
      rfl rfl).2.2.2.1.trans (by decide)⟩⟩

/-- C7: `syncToStdout(key)` returns a non-nil error exactly when
`indexer.GetByKey(key)` returns one, and it is that same error; a key that is
absent from the cache gives a nil error. So in `ProcessNextItem` a failed lookup
of a key with `NumRequeues(key) < 5` ends in one `AddRateLimited(key)` and no
`Forget`, an absent key ends in one `Forget(key)` and no `AddRateLimited`, and
a failed lookup at `NumRequeues(key) >= 5` is given up on like any other failure;
each time the queue that is left is the one those calls produce, `Done(key)` last. -/
theorem syncToStdout_error_iff_lookup_error {Q : Type} (c : Controller Q) (s : String) :
    (∀ (w : World Q) (e : Err),
        (syncToStdout c s w).1 = .returned (some e) ↔ (c.indexer.GetByKey s).err = some e)
    ∧ (∀ w : World Q, (c.indexer.GetByKey s).err = none →
        (c.indexer.GetByKey s).found = false → (syncToStdout c s w).1 = .returned none)
    ∧ (∀ (w : World Q) (q : Q) (e : Err),
        c.queue.Get w.queue = some ((.str s, false), q) →
        (c.indexer.GetByKey s).err = some e →
        c.queue.NumRequeues q (.str s) < 5 →
        ∃ w', ProcessNextItem c w = some (.returned true, w')
          ∧ w'.log = w.log ++ eventsSince w w'
          ∧ (eventsSince w w').count (.queueAddRateLimited (.str s)) = 1
          ∧ (∀ k, Event.queueForget k ∉ eventsSince w w')
          ∧ (∀ e', Event.runtimeHandleError e' ∉ eventsSince w w')
          ∧ w'.queue = c.queue.Done (c.queue.AddRateLimited q (.str s)) (.str s))
    ∧ (∀ (w : World Q) (q : Q),
        c.queue.Get w.queue = some ((.str s, false), q) →
        (c.indexer.GetByKey s).err = none →
        (c.indexer.GetByKey s).found = false →
        ∃ w', ProcessNextItem c w = some (.returned true, w')
          ∧ w'.log = w.log ++ eventsSince w w'
          ∧ (eventsSince w w').count (.queueForget (.str s)) = 1
          ∧ (∀ k, Event.queueAddRateLimited k ∉ eventsSince w w')
          ∧ (∀ e', Event.runtimeHandleError e' ∉ eventsSince w w')
          ∧ w'.queue = c.queue.Done (c.queue.Forget q (.str s)) (.str s))
    ∧ (∀ (w : World Q) (q : Q) (e : Err),
        c.queue.Get w.queue = some ((.str s, false), q) →
        (c.indexer.GetByKey s).err = some e →
        5 ≤ c.queue.NumRequeues q (.str s) →
        ∃ w', ProcessNextItem c w = some (.returned true, w')
          ∧ w'.log = w.log ++ eventsSince w w'
          ∧ (eventsSince w w').count (.queueForget (.str s)) = 1
          ∧ (eventsSince w w').count (.runtimeHandleError e) = 1
          ∧ (∀ k, Event.queueAddRateLimited k ∉ eventsSince w w')
          ∧ w'.queue = c.queue.Done (c.queue.Forget q (.str s)) (.str s)) := by
  refine ⟨?_, ?_, ?_, ?_, ?_⟩
  · intro w e
    cases herr : (c.indexer.GetByKey s).err with
    | some e0 =>
      rw [syncToStdout_err c s w e0 herr]
      simp
    | none =>
      cases hf : (c.indexer.GetByKey s).found with
      | false =>
        rw [syncToStdout_absent c s w herr hf]
        simp
      | true =>
        cases hd : deploymentName (c.indexer.GetByKey s).item with
        | panicked =>
          rw [syncToStdout_panic c s w herr hf hd]
          simp
        | returned name =>
          simp [syncToStdout, World.emit, herr, hf, hd]
  · intro w herr hf
    rw [syncToStdout_absent c s w herr hf]
  · intro w q e hg herr hlt
    have hs := syncToStdout_err c s { queue := q, log := w.log ++ [.queueGet] } e herr
    have hp := ProcessNextItem_synced c w _ s q _ hg hs
    have hh := handleError_lt c e (.str s)
      { queue := q, log := (w.log ++ [.queueGet]) ++ [.indexerGetByKey s,
          .klogErrorf "Fetching object with key %s from store failed with %v"
            [.text s, .err e]] } hlt
    rw [hh] at hp
    refine ⟨_, hp, ?_⟩
    have hlog : (deferredDone c (.str s)
        { queue := c.queue.AddRateLimited q (.str s),
          log := ((w.log ++ [.queueGet]) ++ [.indexerGetByKey s,
              .klogErrorf "Fetching object with key %s from store failed with %v"
                [.text s, .err e]])
            ++ [.queueNumRequeues (.str s),
              .klogInfof "Error syncing deployment %v:%v" [.item (.str s), .err e],
              .queueAddRateLimited (.str s)] }).log
        = w.log ++ [.queueGet, .indexerGetByKey s,
            .klogErrorf "Fetching object with key %s from store failed with %v"
              [.text s, .err e],
            .queueNumRequeues (.str s),
            .klogInfof "Error syncing deployment %v:%v" [.item (.str s), .err e],
            .queueAddRateLimited (.str s), .queueDone (.str s)] := by
      simp [deferredDone, World.emit]
    rw [eventsSince_append _ _ _ hlog]
    refine ⟨hlog, by simp [List.count_cons], ?_, ?_, rfl⟩
    · intro k hk
      simp at hk
    · intro e' he'
      simp at he'
  · intro w q hg herr hf
    have hs := syncToStdout_absent c s { queue := q, log := w.log ++ [.queueGet] } herr hf
    have hp := ProcessNextItem_synced c w _ s q _ hg hs
    rw [handleError_nil] at hp
    refine ⟨_, hp, ?_⟩
    have hlog : (deferredDone c (.str s)
        { queue := c.queue.Forget q (.str s),
          log := ((w.log ++ [.queueGet]) ++ [.indexerGetByKey s,
              .fmtPrintf "Deployment %s does not exist anymore\n" [.text s]])
            ++ [.queueForget (.str s)] }).log
        = w.log ++ [.queueGet, .indexerGetByKey s,
            .fmtPrintf "Deployment %s does not exist anymore\n" [.text s],
            .queueForget (.str s), .queueDone (.str s)] := by
      simp [deferredDone, World.emit]
    rw [eventsSince_append _ _ _ hlog]
    refine ⟨hlog, by simp [List.count_cons], ?_, ?_, rfl⟩
    · intro k hk
      simp at hk
    · intro e' he'
      simp at he'

  · intro w q e hg herr hge
    have hs := syncToStdout_err c s { queue := q, log := w.log ++ [.queueGet] } e herr
    have hp := ProcessNextItem_synced c w _ s q _ hg hs
    have hh := handleError_ge c e (.str s)
      { queue := q, log := (w.log ++ [.queueGet]) ++ [.indexerGetByKey s,
          .klogErrorf "Fetching object with key %s from store failed with %v"
            [.text s, .err e]] } (not_lt.mpr hge)
    rw [hh] at hp
    refine ⟨_, hp, ?_⟩
    have hlog : (deferredDone c (.str s)
        { queue := c.queue.Forget q (.str s),
          log := ((w.log ++ [.queueGet]) ++ [.indexerGetByKey s,
              .klogErrorf "Fetching object with key %s from store failed with %v"
                [.text s, .err e]])
            ++ [.queueNumRequeues (.str s), .queueForget (.str s), .runtimeHandleError e,
              .klogInfof "Dropping deployment %q out of queue: %v"
                [.item (.str s), .err e]] }).log
        = w.log ++ [.queueGet, .indexerGetByKey s,
            .klogErrorf "Fetching object with key %s from store failed with %v"
              [.text s, .err e],
            .queueNumRequeues (.str s), .queueForget (.str s), .runtimeHandleError e,
            .klogInfof "Dropping deployment %q out of queue: %v" [.item (.str s), .err e],
            .queueDone (.str s)] := by
      simp [deferredDone, World.emit]
    rw [eventsSince_append _ _ _ hlog]
    refine ⟨hlog, by simp [List.count_cons], by simp [List.count_cons], ?_, rfl⟩
    intro k hk
    simp at hk

/-- C7, at a queue that holds the key `default/web` and a cache whose lookups fail. -/
theorem syncToStdout_error_iff_lookup_error_witness :
    (brokenIndexer.GetByKey "default/web").err = some "store failure"
    ∧ WorkQueue.iface.NumRequeues
        { WorkQueue.empty with processing := [.str "default/web"] } (.str "default/web") < 5
    ∧ ∃ w', ProcessNextItem (NewController WorkQueue.iface brokenIndexer) webWorld
          = some (.returned true, w')
        ∧ (eventsSince webWorld w').count (.queueAddRateLimited (.str "default/web")) = 1
        ∧ w'.queue = { WorkQueue.empty with failures := [.str "default/web"],
                                             waiting := [.str "default/web"] } :=
  ⟨by decide, by decide,
   let ⟨w', h1, _, h3, _, _, h6⟩ :=
     (syncToStdout_error_iff_lookup_error (NewController WorkQueue.iface brokenIndexer)
       "default/web").2.2.1 webWorld
       { WorkQueue.empty with processing := [.str "default/web"] } "store failure"
       (by decide) (by decide) (by decide)
   ⟨w', h1, h3, h6.trans (by decide)⟩⟩

/-- C8: for every Add, Update and Delete notification the registered handler
computes the key of the object and calls `queue.Add(key)` exactly once, and makes
no other call: Add with the key of the added object, Update with the key of the
new object whatever the old one is, Delete with the key from the
deletion-handling key function, which for a tombstone is the key it carries. The
notifications are those the informer for Deployments delivers, a Deployment or, on
Delete, possibly a tombstone; on these the key functions return a key. For key
functions in general the same holds wherever they return a key. -/
theorem handlers_add_key_once {Q : Type} (kf : KeyFuncs) (queue : RateLimitingInterface Q)
    (w : World Q) :
    (∀ obj, (kf.MetaNamespaceKeyFunc obj).2 = none →
        AddFunc kf queue obj w
          = { queue := queue.Add w.queue (.str (kf.MetaNamespaceKeyFunc obj).1),
              log := w.log ++ [.queueAdd (.str (kf.MetaNamespaceKeyFunc obj).1)] })
    ∧ (∀ oldObj newObj, (kf.MetaNamespaceKeyFunc newObj).2 = none →
        UpdateFunc kf queue oldObj newObj w
          = { queue := queue.Add w.queue (.str (kf.MetaNamespaceKeyFunc newObj).1),
              log := w.log ++ [.queueAdd (.str (kf.MetaNamespaceKeyFunc newObj).1)] })
    ∧ (∀ obj, (kf.DeletionHandlingMetaNamespaceKeyFunc obj).2 = none →
        DeleteFunc kf queue obj w
          = { queue := queue.Add w.queue
                (.str (kf.DeletionHandlingMetaNamespaceKeyFunc obj).1),
              log := w.log
                ++ [.queueAdd (.str (kf.DeletionHandlingMetaNamespaceKeyFunc obj).1)] })
    ∧ (∀ key obj,
        DeleteFunc cacheKeyFuncs queue (.deletedFinalStateUnknown key obj) w
          = { queue := queue.Add w.queue (.str key),
              log := w.log ++ [.queueAdd (.str key)] })
    ∧ (∀ ns name,
        AddFunc cacheKeyFuncs queue (.deployment ns name) w
          = { queue := queue.Add w.queue (.str (metaNamespaceKey (.deployment ns name)).1),
              log := w.log ++ [.queueAdd (.str (metaNamespaceKey (.deployment ns name)).1)] })
    ∧ (∀ oldObj ns name,
        UpdateFunc cacheKeyFuncs queue oldObj (.deployment ns name) w
          = { queue := queue.Add w.queue (.str (metaNamespaceKey (.deployment ns name)).1),
              log := w.log ++ [.queueAdd (.str (metaNamespaceKey (.deployment ns name)).1)] })
    ∧ (∀ ns name,
        DeleteFunc cacheKeyFuncs queue (.deployment ns name) w
          = { queue := queue.Add w.queue (.str (metaNamespaceKey (.deployment ns name)).1),
              log := w.log ++ [.queueAdd (.str (metaNamespaceKey (.deployment ns name)).1)] })
    ∧ (∀ ns name, (metaNamespaceKey (.deployment ns name)).2 = none
        ∧ (metaNamespaceKey (.deployment ns name)).1
            = if ns.length > 0 then ns ++ "/" ++ name else name) := by
  have hdep : ∀ ns name, (metaNamespaceKey (.deployment ns name)).2 = none := by
    intro ns name
    by_cases h : ns.length > 0 <;> simp [metaNamespaceKey, h]
  refine ⟨?_, ?_, ?_, ?_, ?_, ?_, ?_, ?_⟩
  · intro obj h
    cases hk : kf.MetaNamespaceKeyFunc obj with
    | mk key err =>
      rw [hk] at h
      simp only at h
      subst h
      simp [AddFunc, hk, World.emit]
  · intro oldObj newObj h
    cases hk : kf.MetaNamespaceKeyFunc newObj with
    | mk key err =>
      rw [hk] at h
      simp only at h
      subst h
      simp [UpdateFunc, hk, World.emit]
  · intro obj h
    cases hk : kf.DeletionHandlingMetaNamespaceKeyFunc obj with
    | mk key err =>
      rw [hk] at h
      simp only at h
      subst h
      simp [DeleteFunc, hk, World.emit]
  · intro key obj
    simp [DeleteFunc, cacheKeyFuncs, deletionHandlingMetaNamespaceKey, World.emit]
  · intro ns name
    cases hk : metaNamespaceKey (.deployment ns name) with
    | mk key err =>
      have h := hdep ns name
      rw [hk] at h
      simp only at h
      subst h
      simp [AddFunc, cacheKeyFuncs, hk, World.emit]
  · intro oldObj ns name
    cases hk : metaNamespaceKey (.deployment ns name) with
    | mk key err =>
      have h := hdep ns name
      rw [hk] at h
      simp only at h
      subst h
      simp [UpdateFunc, cacheKeyFuncs, hk, World.emit]
  · intro ns name
    cases hk : metaNamespaceKey (.deployment ns name) with
    | mk key err =>
      have h := hdep ns name
      rw [hk] at h
      simp only at h
      subst h
      simp [DeleteFunc, cacheKeyFuncs, deletionHandlingMetaNamespaceKey, hk, World.emit]
  · intro ns name
    refine ⟨hdep ns name, ?_⟩
    by_cases h : ns.length > 0 <;> simp [metaNamespaceKey, h]

/-- C8, at an Update notification for the deployment `default/web`. -/
theorem handlers_add_key_once_witness :
    (cacheKeyFuncs.MetaNamespaceKeyFunc (.deployment "default" "web")).2 = none
    ∧ eventsSince freshWorld
        (UpdateFunc cacheKeyFuncs WorkQueue.iface (.deployment "default" "old")
          (.deployment "default" "web") freshWorld)
        = [.queueAdd (.str "default/web")] :=
  ⟨by decide,
   eventsSince_append _ _ _
     (((handlers_add_key_once cacheKeyFuncs WorkQueue.iface freshWorld).2.1
        (.deployment "default" "old") (.deployment "default" "web") (by decide)).symm ▸ rfl)⟩

/-- C9: when the initial cache sync does not complete, `Run` starts no worker for
any value of `threadiness`, reports the condition to the error sink exactly once,
returns, and calls `queue.ShutDown()` on the way out. When the sync has succeeded
the workers are started after it, as many as the loop `i < threadiness` counts. -/
theorem Run_starts_workers_only_after_sync {Q : Type} (c : Controller Q) (threadiness : Int)
    (stopClosed : Bool) (w : World Q) :
    (Run c threadiness false stopClosed w).1 = .returned
    ∧ (Run c threadiness false stopClosed w).2.log
        = w.log ++ eventsSince w (Run c threadiness false stopClosed w).2
    ∧ eventsSince w (Run c threadiness false stopClosed w).2
        = [.klogInfo "Starting deployment controller", .goInformerRun, .waitForCacheSync,
            .runtimeHandleError "Timed out waiting for caches to sync",
            .queueShutDown, .runtimeHandleCrash]
    ∧ Event.goWaitUntilRunWorker ∉ eventsSince w (Run c threadiness false stopClosed w).2
    ∧ (eventsSince w (Run c threadiness false stopClosed w).2).count
        (.runtimeHandleError "Timed out waiting for caches to sync") = 1
    ∧ (∀ e, Event.runtimeHandleError e ∈ eventsSince w (Run c threadiness false stopClosed w).2
        → e = "Timed out waiting for caches to sync")
    ∧ (eventsSince w (Run c threadiness false stopClosed w).2).count .queueShutDown = 1
    ∧ (Run c threadiness false stopClosed w).2.queue = c.queue.ShutDown w.queue
    ∧ (eventsSince w (Run c threadiness true stopClosed w).2).count .goWaitUntilRunWorker
        = threadiness.toNat
    ∧ (∃ rest, eventsSince w (Run c threadiness true stopClosed w).2
        = [.klogInfo "Starting deployment controller", .goInformerRun, .waitForCacheSync]
          ++ List.replicate threadiness.toNat .goWaitUntilRunWorker ++ rest
        ∧ Event.goWaitUntilRunWorker ∉ rest)
    ∧ (0 ≤ threadiness →
        ((eventsSince w (Run c threadiness true stopClosed w).2).count
          .goWaitUntilRunWorker : Int) = threadiness) := by
  have hfalse : (Run c threadiness false stopClosed w).2.log
      = w.log ++ [.klogInfo "Starting deployment controller", .goInformerRun, .waitForCacheSync,
            .runtimeHandleError "Timed out waiting for caches to sync",
            .queueShutDown, .runtimeHandleCrash] := by
    simp [Run, runDeferred, World.emit]
  have hsF := eventsSince_append w _ _ hfalse
  have htrue : ∃ rest, (Run c threadiness true stopClosed w).2.log
      = w.log ++ ([.klogInfo "Starting deployment controller", .goInformerRun,
          .waitForCacheSync] ++ List.replicate threadiness.toNat .goWaitUntilRunWorker ++ rest)
      ∧ Event.goWaitUntilRunWorker ∉ rest := by
    cases stopClosed with
    | true =>
      exact ⟨[.recvStopCh, .klogInfo "Stopping deployment controller", .queueShutDown,
        .runtimeHandleCrash], by simp [Run, runDeferred, World.emit, startWorkers_spec],
        by simp⟩
    | false =>
      exact ⟨[], by simp [Run, World.emit, startWorkers_spec], by simp⟩
  obtain ⟨rest, hlogT, hrest⟩ := htrue
  have hsT := eventsSince_append w _ _ hlogT
  have hcount : (eventsSince w (Run c threadiness true stopClosed w).2).count
      .goWaitUntilRunWorker = threadiness.toNat := by
    rw [hsT]
    have h0 : rest.count .goWaitUntilRunWorker = 0 := List.count_eq_zero.mpr hrest
    simp [List.count_cons, List.count_append, h0, List.count_replicate_self]
  rw [hsF]
  refine ⟨by simp [Run], hfalse, rfl, by simp, by simp [List.count_cons], ?_,
    by simp [List.count_cons], by simp [Run, runDeferred, World.emit], hcount,
    ⟨rest, hsT, hrest⟩, ?_⟩
  · intro e he
    simpa using he
  · intro h
    rw [hcount]
    exact Int.toNat_of_nonneg h

section Interleaving

theorem WorkQueue.add_sound (q : WorkQueue) (key : Item) (h : q.Sound) :
    (q.add key).Sound ∧ (q.add key).processing = q.processing := by
  obtain ⟨hnd, hdis⟩ := h
  unfold WorkQueue.add
  by_cases hp : key ∈ q.processing
  · by_cases hd : key ∈ q.dirty
    · rw [if_pos hp, if_pos hd]
      exact ⟨⟨hnd, hdis⟩, rfl⟩
    · rw [if_pos hp, if_neg hd]
      exact ⟨⟨hnd, hdis⟩, rfl⟩
  · by_cases hq : key ∈ q.queue
    · rw [if_neg hp, if_pos hq]
      exact ⟨⟨hnd, hdis⟩, rfl⟩
    · rw [if_neg hp, if_neg hq]
      refine ⟨⟨?_, ?_⟩, rfl⟩
      · show (q.queue ++ [key]).Nodup
        rw [List.nodup_append]
        refine ⟨hnd, List.nodup_singleton key, ?_⟩
        intro a ha hb
        rw [List.mem_singleton] at hb
        subst hb
        exact hq ha
      · intro k hk
        have hk' : k ∈ q.queue ++ [key] := hk
        rw [List.mem_append, List.mem_singleton] at hk'
        rcases hk' with hk' | hk'
        · exact hdis k hk'
        · subst hk'
          exact hp

theorem WorkQueue.done_sound (q : WorkQueue) (key : Item) (h : q.Sound) :
    (q.done key).Sound
      ∧ (q.done key).processing = q.processing.filter (fun k => k ≠ key) := by
  obtain ⟨hnd, hdis⟩ := h
  have h1 : WorkQueue.Sound
      { q with processing := q.processing.filter (fun k => k ≠ key) } := by
    refine ⟨hnd, ?_⟩
    intro k hk hmem
    exact hdis k hk (List.mem_of_mem_filter hmem)
  unfold WorkQueue.done
  by_cases hd : key ∈ q.dirty
  · rw [if_pos hd]
    have h2 : WorkQueue.Sound
        { q with processing := q.processing.filter (fun k => k ≠ key),
                 dirty := q.dirty.filter (fun k => k ≠ key) } := h1
    obtain ⟨hs, hp⟩ := WorkQueue.add_sound _ key h2
    exact ⟨hs, hp⟩
  · rw [if_neg hd]
    exact ⟨h1, rfl⟩

theorem WorkQueue.get_sound (q q' : WorkQueue) (key : Item) (h : q.Sound)
    (hg : q.get = some ((key, false), q')) :
    q'.Sound ∧ q'.processing = key :: q.processing ∧ key ∉ q.processing := by
  obtain ⟨hnd, hdis⟩ := h
  unfold WorkQueue.get at hg
  by_cases hs : q.shuttingDown = true
  · simp [hs] at hg
  · cases hq : q.queue with
    | nil => simp [hs, hq] at hg
    | cons k rest =>
      simp [hs, hq] at hg
      obtain ⟨hk, hq'⟩ := hg
      subst hk
      subst hq'
      rw [hq] at hnd hdis
      have hnd' := List.nodup_cons.mp hnd
      refine ⟨⟨hnd'.2, ?_⟩, rfl, hdis k (List.mem_cons_self k rest)⟩
      intro a ha hmem
      have hmem' : a ∈ k :: q.processing := hmem
      rw [List.mem_cons] at hmem'
      rcases hmem' with hmem' | hmem'
      · subst hmem'
        exact hnd'.1 ha
      · exact hdis a (List.mem_cons_of_mem k ha) hmem'

theorem WorkQueue.get_shutdown (q q' : WorkQueue) (key : Item)
    (hg : q.get = some ((key, true), q')) : q' = q := by
  unfold WorkQueue.get at hg
  by_cases hs : q.shuttingDown = true
  · simp [hs] at hg
    exact hg.2.symm
  · cases hq : q.queue with
    | nil => simp [hs, hq] at hg
    | cons k rest => simp [hs, hq] at hg

/-- A handler leaves the queue as it is or adds one key to it. -/
theorem handler_queue (kf : KeyFuncs) (q : WorkQueue) (obj oldObj : Object) :
    ((AddFunc kf WorkQueue.iface obj { queue := q, log := [] }).queue = q
      ∨ ∃ key, (AddFunc kf WorkQueue.iface obj { queue := q, log := [] }).queue = q.add key)
    ∧ ((UpdateFunc kf WorkQueue.iface oldObj obj { queue := q, log := [] }).queue = q
      ∨ ∃ key, (UpdateFunc kf WorkQueue.iface oldObj obj
          { queue := q, log := [] }).queue = q.add key)
    ∧ ((DeleteFunc kf WorkQueue.iface obj { queue := q, log := [] }).queue = q
      ∨ ∃ key, (DeleteFunc kf WorkQueue.iface obj { queue := q, log := [] }).queue
          = q.add key) := by
  refine ⟨?_, ?_, ?_⟩
  · cases hk : kf.MetaNamespaceKeyFunc obj with
    | mk key err =>
      cases err with
      | none => exact Or.inr ⟨.str key, by simp [AddFunc, hk, World.emit, WorkQueue.iface]⟩
      | some e => exact Or.inl (by simp [AddFunc, hk])
  · cases hk : kf.MetaNamespaceKeyFunc obj with
    | mk key err =>
      cases err with
      | none => exact Or.inr ⟨.str key, by simp [UpdateFunc, hk, World.emit, WorkQueue.iface]⟩
      | some e => exact Or.inl (by simp [UpdateFunc, hk])
  · cases hk : kf.DeletionHandlingMetaNamespaceKeyFunc obj with
    | mk key err =>
      cases err with
      | none => exact Or.inr ⟨.str key, by simp [DeleteFunc, hk, World.emit, WorkQueue.iface]⟩
      | some e => exact Or.inl (by simp [DeleteFunc, hk])

variable {n : Nat}

/-- A step that touches no worker keeps the invariant when it keeps the queue
sound and the in-flight marks in place. -/
theorem System.Inv.queue_step {s : System n} (h : s.Inv) (q : WorkQueue) (hq : q.Sound)
    (hp : q.processing = s.queue.processing) :
    System.Inv { s with queue := q } := by
  obtain ⟨_, hin, huniq⟩ := h
  refine ⟨hq, ?_, huniq⟩
  intro i key hi
  show key ∈ q.processing
  rw [hp]
  exact hin i key hi

/-- A step of worker `i` keeps the invariant when the queue stays sound, the keys
of the other workers stay marked in flight, and the key the worker now holds is
marked in flight and held by no other worker. -/
theorem System.Inv.move {s : System n} (h : s.Inv) (i : Fin n) (wk : Worker) (q : WorkQueue)
    (hq : q.Sound)
    (hothers : ∀ j key, j ≠ i → (s.workers j).inFlight = some key → key ∈ q.processing)
    (hmine : ∀ key, wk.inFlight = some key →
      key ∈ q.processing ∧ ∀ j, j ≠ i → (s.workers j).inFlight ≠ some key) :
    (s.move i wk q).Inv := by
  obtain ⟨_, _, huniq⟩ := h
  refine ⟨hq, ?_, ?_⟩
  · intro j key hj
    by_cases hji : j = i
    · subst hji
      simp only [System.move, Function.update_same] at hj
      exact (hmine key hj).1
    · simp only [System.move, Function.update_noteq hji] at hj
      exact hothers j key hji hj
  · intro j k key hj hk
    by_cases hji : j = i
    · by_cases hki : k = i
      · rw [hji, hki]
      · exfalso
        subst hji
        simp only [System.move, Function.update_same] at hj
        simp only [System.move, Function.update_noteq hki] at hk
        exact (hmine key hj).2 k hki hk
    · by_cases hki : k = i
      · exfalso
        subst hki
        simp only [System.move, Function.update_same] at hk
        simp only [System.move, Function.update_noteq hji] at hj
        exact (hmine key hk).2 j hji hj
      · simp only [System.move, Function.update_noteq hji] at hj
        simp only [System.move, Function.update_noteq hki] at hk
        exact huniq j k key hj hk

/-- A step of worker `i` that keeps its key and the in-flight marks. -/
theorem System.Inv.move_same_key {s : System n} (h : s.Inv) (i : Fin n) (wk : Worker)
    (q : WorkQueue) (key : Item) (hq : q.Sound) (hp : q.processing = s.queue.processing)
    (hold : (s.workers i).inFlight = some key) (hnew : wk.inFlight = some key) :
    (s.move i wk q).Inv := by
  have h' := h
  obtain ⟨_, hin, huniq⟩ := h'
  refine h.move i wk q hq ?_ ?_
  · intro j k _ hj
    rw [hp]
    exact hin j k hj
  · intro k hk
    rw [hnew] at hk
    injection hk with hk
    subst hk
    refine ⟨by rw [hp]; exact hin i key hold, ?_⟩
    intro j hji hj
    exact hji (huniq j i key hj hold)

/-- A step of worker `i` after which it holds no key, the in-flight marks of the
other workers staying in place. -/
theorem System.Inv.move_no_key {s : System n} (h : s.Inv) (i : Fin n) (wk : Worker)
    (q : WorkQueue) (hq : q.Sound)
    (hothers : ∀ j key, j ≠ i → (s.workers j).inFlight = some key → key ∈ q.processing)
    (hnew : wk.inFlight = none) :
    (s.move i wk q).Inv := by
  refine h.move i wk q hq hothers ?_
  intro k hk
  rw [hnew] at hk
  exact absurd hk (by simp)

theorem System.init_inv : (System.init n).Inv := by
  refine ⟨⟨List.nodup_nil, ?_⟩, ?_, ?_⟩
  · intro key hk
    simp [System.init, WorkQueue.empty] at hk
  · intro i key hi
    simp [System.init, Worker.inFlight] at hi
  · intro i j key hi
    simp [System.init, Worker.inFlight] at hi

theorem Step.preserves_inv {s s' : System n} (hstep : Step s s') (h : s.Inv) : s'.Inv := by
  have hsound := h.1
  have hin := h.2.1
  have huniq := h.2.2
  cases hstep with
  | added kf obj =>
    rcases (handler_queue kf s.queue obj obj).1 with hq | ⟨key, hq⟩
    · rw [hq]
      exact h
    · rw [hq]
      exact h.queue_step _ (WorkQueue.add_sound _ key hsound).1
        (WorkQueue.add_sound _ key hsound).2
  | updated kf oldObj newObj =>
    rcases (handler_queue kf s.queue newObj oldObj).2.1 with hq | ⟨key, hq⟩
    · rw [hq]
      exact h
    · rw [hq]
      exact h.queue_step _ (WorkQueue.add_sound _ key hsound).1
        (WorkQueue.add_sound _ key hsound).2
  | deleted kf obj =>
    rcases (handler_queue kf s.queue obj obj).2.2 with hq | ⟨key, hq⟩
    · rw [hq]
      exact h
    · rw [hq]
      exact h.queue_step _ (WorkQueue.add_sound _ key hsound).1
        (WorkQueue.add_sound _ key hsound).2
  | delayElapsed key hk =>
    have hs1 : WorkQueue.Sound { s.queue with waiting := s.queue.waiting.erase key } := hsound
    exact h.queue_step _ (WorkQueue.add_sound _ key hs1).1 (WorkQueue.add_sound _ key hs1).2
  | shutDown =>
    exact h.queue_step _ hsound rfl
  | get i key q hw hg =>
    obtain ⟨hq, hp, hfresh⟩ := WorkQueue.get_sound s.queue q key hsound hg
    refine h.move i _ q hq ?_ ?_
    · intro j k _ hj
      rw [hp]
      exact List.mem_cons_of_mem _ (hin j k hj)
    · intro k hk
      simp only [Worker.inFlight] at hk
      injection hk with hk
      subst hk
      refine ⟨by rw [hp]; exact List.mem_cons_self _ _, ?_⟩
      intro j _ hj
      exact hfresh (hin j key hj)
  | getShutdown i key q hw hg =>
    have hq := WorkQueue.get_shutdown s.queue q key hg
    subst hq
    exact h.move_no_key i _ _ hsound (fun j k _ hj => hin j k hj) rfl
  | restart i hw =>
    exact h.move_no_key i _ _ hsound (fun j k _ hj => hin j k hj) rfl
  | keyPanic i key hw hk =>
    exact h.move_same_key i _ _ key hsound rfl (by rw [hw]; rfl) rfl
  | sync i key str indexer hw hk =>
    refine h.move_same_key i _ _ key hsound rfl (by rw [hw]; rfl) ?_
    cases (syncToStdout (NewController WorkQueue.iface indexer) str
      { queue := s.queue, log := [] }).1 <;> rfl
  | forget i key hw =>
    exact h.move_same_key i _ _ key hsound rfl (by rw [hw]; rfl) rfl
  | count i key e hw =>
    exact h.move_same_key i _ _ key hsound rfl (by rw [hw]; rfl) rfl
  | requeue i key e m hw hm =>
    exact h.move_same_key i _ _ key hsound rfl (by rw [hw]; rfl) rfl
  | giveUp i key e m hw hm =>
    exact h.move_same_key i _ _ key hsound rfl (by rw [hw]; rfl) rfl
  | done i key panicking hw =>
    obtain ⟨hq, hp⟩ := WorkQueue.done_sound s.queue key hsound
    have hold : (s.workers i).inFlight = some key := by rw [hw]; rfl
    refine h.move_no_key i _ _ hq ?_ ?_
    · intro j k hji hj
      show k ∈ (s.queue.done key).processing
      rw [hp, List.mem_filter]
      refine ⟨hin j k hj, ?_⟩
      have hne : k ≠ key := by
        intro hkk
        subst hkk
        exact hji (huniq j i k hj hold)
      simpa using hne
    · cases panicking <;> rfl

theorem Reachable.invariant {s : System n} (h : Reachable s) : s.Inv := by
  induction h with
  | refl => exact System.init_inv
  | tail _ hstep ih => exact hstep.preserves_inv ih

theorem System.move_move (s : System n) (i : Fin n) (a b : Worker) (q q' : WorkQueue) :
    (s.move i a q).move i b q' = s.move i b q' := by
  simp [System.move]

theorem System.move_workers (s : System n) (i : Fin n) (a : Worker) (q : WorkQueue) :
    (s.move i a q).workers i = a := by
  simp [System.move]

/-- The outcome of the reconcile depends on the cache alone, not on the log. -/
theorem syncToStdout_outcome {Q : Type} (c : Controller Q) (key : String) (w w2 : World Q) :
    (syncToStdout c key w).1 = (syncToStdout c key w2).1 := by
  cases herr : (c.indexer.GetByKey key).err with
  | some e => rw [syncToStdout_err c key w e herr, syncToStdout_err c key w2 e herr]
  | none =>
    cases hf : (c.indexer.GetByKey key).found with
    | false => rw [syncToStdout_absent c key w herr hf, syncToStdout_absent c key w2 herr hf]
    | true =>
      cases hd : deploymentName (c.indexer.GetByKey key).item with
      | panicked => rw [syncToStdout_panic c key w herr hf hd, syncToStdout_panic c key w2 herr hf hd]
      | returned name => simp [syncToStdout, World.emit, herr, hf, hd]

/-- The steps of one worker, taken without interruption, are one call of
`ProcessNextItem`: they end where the call ends and leave the queue it leaves. -/
theorem worker_steps_match_ProcessNextItem (s : System n) (i : Fin n) (indexer : Indexer)
    (hw : s.workers i = .atGet) (out : Outcome Bool) (w' : World WorkQueue)
    (h : ProcessNextItem (NewController WorkQueue.iface indexer)
      { queue := s.queue, log := [] } = some (out, w')) :
    Relation.ReflTransGen Step s (s.move i (Worker.afterCall out) w'.queue) := by
  cases hg : WorkQueue.iface.Get s.queue with
  | none =>
    simp [ProcessNextItem, NewController, hg] at h
  | some r =>
    obtain ⟨⟨key, quit⟩, q⟩ := r
    cases quit with
    | true =>
      rw [ProcessNextItem_shutdown (NewController WorkQueue.iface indexer)
        { queue := s.queue, log := [] } key q hg] at h
      cases h
      exact Relation.ReflTransGen.single (Step.getShutdown s i key q hw hg)
    | false =>
      have h1 : Relation.ReflTransGen Step s (s.move i (.atSync key) q) :=
        Relation.ReflTransGen.single (Step.get s i key q hw hg)
      have finish : ∀ (p : Bool) (q2 : WorkQueue),
          Relation.ReflTransGen Step s (s.move i (.atDone key p) q2) →
          Relation.ReflTransGen Step s
            (s.move i (Worker.afterDone p) (WorkQueue.iface.Done q2 key)) := by
        intro p q2 hreach
        have hstep := Step.done (s.move i (.atDone key p) q2) i key p
          (System.move_workers s i _ q2)
        rw [System.move_move] at hstep
        exact hreach.tail hstep
      cases hk : assertString key with
      | panicked =>
        rw [ProcessNextItem_badKey (NewController WorkQueue.iface indexer)
        { queue := s.queue, log := [] } key q hg hk] at h
        cases h
        have hstep := Step.keyPanic (s.move i (.atSync key) q) i key
          (System.move_workers s i _ q) hk
        rw [System.move_move] at hstep
        exact finish true q (h1.tail hstep)
      | returned str =>
        have hkey : key = .str str := by
          cases key <;> simp [assertString] at hk
          rw [hk]
        subst hkey
        have hstep := Step.sync (s.move i (.atSync (.str str)) q) i (.str str) str indexer
          (System.move_workers s i _ q) hk
        rw [System.move_move] at hstep
        have h2 := h1.tail hstep
        have hout := syncToStdout_outcome (NewController WorkQueue.iface indexer) str
          { queue := q, log := [] } { queue := q, log := [] ++ [.queueGet] }
        obtain ⟨_, _, hqueue, _⟩ := syncToStdout_log (NewController WorkQueue.iface indexer) str
          { queue := q, log := [] ++ [.queueGet] }
        cases hs : syncToStdout (NewController WorkQueue.iface indexer) str
            { queue := q, log := [] ++ [.queueGet] } with
        | mk out1 w1 =>
          rw [hs] at hout hqueue
          simp only at hout hqueue
          have hsys : (s.move i (.atSync (.str str)) q).queue = q := rfl
          rw [hsys, hout] at h2
          cases out1 with
          | panicked =>
            rw [ProcessNextItem_syncPanic (NewController WorkQueue.iface indexer)
              { queue := s.queue, log := [] } w1 str q hg hs] at h
            cases h
            have := finish true q h2
            rw [← hqueue] at this
            exact this
          | returned err =>
            rw [ProcessNextItem_synced (NewController WorkQueue.iface indexer)
              { queue := s.queue, log := [] } w1 str q err hg hs] at h
            cases h
            cases err with
            | none =>
              have hstep2 := Step.forget (s.move i (.atHandle (.str str) none) q) i (.str str)
                (System.move_workers s i _ q)
              rw [System.move_move] at hstep2
              have := finish false _ (h2.tail hstep2)
              rw [handleError_nil, hqueue]
              exact this
            | some e =>
              have hstep2 := Step.count (s.move i (.atHandle (.str str) (some e)) q) i
                (.str str) e (System.move_workers s i _ q)
              rw [System.move_move] at hstep2
              have h3 : Relation.ReflTransGen Step s
                  (s.move i (.atRetry (.str str) e
                    (WorkQueue.iface.NumRequeues q (.str str))) q) := h2.tail hstep2
              by_cases hm : WorkQueue.iface.NumRequeues q (.str str) < 5
              · have hstep3 := Step.requeue
                  (s.move i (.atRetry (.str str) e
                    (WorkQueue.iface.NumRequeues q (.str str))) q) i (.str str) e _
                  (System.move_workers s i _ _) hm
                rw [System.move_move] at hstep3
                have := finish false _ (h3.tail hstep3)
                rw [handleError_lt _ e (.str str) w1 (by rw [hqueue]; exact hm), hqueue]
                exact this
              · have hstep3 := Step.giveUp
                  (s.move i (.atRetry (.str str) e
                    (WorkQueue.iface.NumRequeues q (.str str))) q) i (.str str) e _
                  (System.move_workers s i _ _) hm
                rw [System.move_move] at hstep3
                have := finish false _ (h3.tail hstep3)
                rw [handleError_ge _ e (.str str) w1 (by rw [hqueue]; exact hm), hqueue]
                exact this

/-! ### The queue of the running controller holds string keys only -/

theorem WorkQueue.add_stringKeys (q : WorkQueue) (key : Item) (h : q.StringKeys)
    (hkey : key.isString = true) : (q.add key).StringKeys := by
  obtain ⟨h1, h2, h3, h4⟩ := h
  unfold WorkQueue.add
  by_cases hp : key ∈ q.processing
  · by_cases hd : key ∈ q.dirty
    · rw [if_pos hp, if_pos hd]
      exact ⟨h1, h2, h3, h4⟩
    · rw [if_pos hp, if_neg hd]
      refine ⟨h1, ?_, h3, h4⟩
      intro k hk
      have hk' : k ∈ key :: q.dirty := hk
      rw [List.mem_cons] at hk'
      rcases hk' with hk' | hk'
      · rw [hk']
        exact hkey
      · exact h2 k hk'
  · by_cases hq : key ∈ q.queue
    · rw [if_neg hp, if_pos hq]
      exact ⟨h1, h2, h3, h4⟩
    · rw [if_neg hp, if_neg hq]
      refine ⟨?_, h2, h3, h4⟩
      intro k hk
      have hk' : k ∈ q.queue ++ [key] := hk
      rw [List.mem_append, List.mem_singleton] at hk'
      rcases hk' with hk' | hk'
      · exact h1 k hk'
      · rw [hk']
        exact hkey

theorem WorkQueue.done_stringKeys (q : WorkQueue) (key : Item) (h : q.StringKeys) :
    (q.done key).StringKeys := by
  obtain ⟨h1, h2, h3, h4⟩ := h
  unfold WorkQueue.done
  by_cases hd : key ∈ q.dirty
  · rw [if_pos hd]
    refine WorkQueue.add_stringKeys _ key ⟨h1, ?_, ?_, h4⟩ (h2 key hd)
    · intro k hk
      exact h2 k (List.mem_of_mem_filter hk)
    · intro k hk
      exact h3 k (List.mem_of_mem_filter hk)
  · rw [if_neg hd]
    refine ⟨h1, h2, ?_, h4⟩
    intro k hk
    exact h3 k (List.mem_of_mem_filter hk)

theorem WorkQueue.get_stringKeys (q q' : WorkQueue) (key : Item) (h : q.StringKeys)
    (hg : q.get = some ((key, false), q')) : key.isString = true ∧ q'.StringKeys := by
  obtain ⟨h1, h2, h3, h4⟩ := h
  unfold WorkQueue.get at hg
  by_cases hs : q.shuttingDown = true
  · simp [hs] at hg
  · cases hq : q.queue with
    | nil => simp [hs, hq] at hg
    | cons k rest =>
      simp [hs, hq] at hg
      obtain ⟨hk, hq'⟩ := hg
      subst hk
      subst hq'
      rw [hq] at h1
      have hkstr := h1 k (List.mem_cons_self k rest)
      refine ⟨hkstr, ?_, h2, ?_, h4⟩
      · intro a ha
        exact h1 a (List.mem_cons_of_mem k ha)
      · intro a ha
        have ha' : a ∈ k :: q.processing := ha
        rw [List.mem_cons] at ha'
        rcases ha' with ha' | ha'
        · rw [ha']
          exact hkstr
        · exact h3 a ha'

theorem Step.preserves_stringKeys {s s' : System n} (hstep : Step s s') (hinv : s.Inv)
    (h : s.queue.StringKeys) : s'.queue.StringKeys := by
  have hheld : ∀ i key, (s.workers i).inFlight = some key → key.isString = true :=
    fun i key hi => h.2.2.1 key (hinv.2.1 i key hi)
  have hrate : ∀ key, key.isString = true → (s.queue.addRateLimited key).StringKeys := by
    intro key hkey
    obtain ⟨h1, h2, h3, h4⟩ := h
    refine ⟨h1, h2, h3, ?_⟩
    intro k hk
    have hk' : k ∈ s.queue.waiting ++ [key] := hk
    rw [List.mem_append, List.mem_singleton] at hk'
    rcases hk' with hk' | hk'
    · exact h4 k hk'
    · rw [hk']
      exact hkey
  cases hstep with
  | added kf obj =>
    cases hk : kf.MetaNamespaceKeyFunc obj with
    | mk key err =>
      cases err with
      | none =>
        have : (AddFunc kf WorkQueue.iface obj { queue := s.queue, log := [] }).queue
            = s.queue.add (.str key) := by
          simp [AddFunc, hk, World.emit, WorkQueue.iface]
        show WorkQueue.StringKeys (AddFunc kf WorkQueue.iface obj _).queue
        rw [this]
        exact WorkQueue.add_stringKeys _ _ h rfl
      | some e =>
        have : (AddFunc kf WorkQueue.iface obj { queue := s.queue, log := [] }).queue
            = s.queue := by
          simp [AddFunc, hk]
        show WorkQueue.StringKeys (AddFunc kf WorkQueue.iface obj _).queue
        rw [this]
        exact h
  | updated kf oldObj newObj =>
    cases hk : kf.MetaNamespaceKeyFunc newObj with
    | mk key err =>
      cases err with
      | none =>
        have : (UpdateFunc kf WorkQueue.iface oldObj newObj
            { queue := s.queue, log := [] }).queue = s.queue.add (.str key) := by
          simp [UpdateFunc, hk, World.emit, WorkQueue.iface]
        show WorkQueue.StringKeys (UpdateFunc kf WorkQueue.iface oldObj newObj _).queue
        rw [this]
        exact WorkQueue.add_stringKeys _ _ h rfl
      | some e =>
        have : (UpdateFunc kf WorkQueue.iface oldObj newObj
            { queue := s.queue, log := [] }).queue = s.queue := by
          simp [UpdateFunc, hk]
        show WorkQueue.StringKeys (UpdateFunc kf WorkQueue.iface oldObj newObj _).queue
        rw [this]
        exact h
  | deleted kf obj =>
    cases hk : kf.DeletionHandlingMetaNamespaceKeyFunc obj with
    | mk key err =>
      cases err with
      | none =>
        have : (DeleteFunc kf WorkQueue.iface obj { queue := s.queue, log := [] }).queue
            = s.queue.add (.str key) := by
          simp [DeleteFunc, hk, World.emit, WorkQueue.iface]
        show WorkQueue.StringKeys (DeleteFunc kf WorkQueue.iface obj _).queue
        rw [this]
        exact WorkQueue.add_stringKeys _ _ h rfl
      | some e =>
        have : (DeleteFunc kf WorkQueue.iface obj { queue := s.queue, log := [] }).queue
            = s.queue := by
          simp [DeleteFunc, hk]
        show WorkQueue.StringKeys (DeleteFunc kf WorkQueue.iface obj _).queue
        rw [this]
        exact h
  | delayElapsed key hk =>
    obtain ⟨h1, h2, h3, h4⟩ := h
    refine WorkQueue.add_stringKeys _ key ⟨h1, h2, h3, ?_⟩ (h4 key hk)
    intro k hk'
    exact h4 k (List.mem_of_mem_erase hk')
  | shutDown => exact h
  | get i key q hw hg => exact (WorkQueue.get_stringKeys s.queue q key h hg).2
  | getShutdown i key q hw hg =>
    have hq := WorkQueue.get_shutdown s.queue q key hg
    subst hq
    exact h
  | restart i hw => exact h
  | keyPanic i key hw hk => exact h
  | sync i key str indexer hw hk => exact h
  | forget i key hw => exact h
  | count i key e hw => exact h
  | requeue i key e m hw hm =>
    exact hrate key (hheld i key (by rw [hw]; rfl))
  | giveUp i key e m hw hm => exact h
  | done i key panicking hw => exact WorkQueue.done_stringKeys s.queue key h

/-- In every state the controller can reach, whatever `Get` hands out to a worker
is a string: the handlers enqueue string keys and `handleError` re-enqueues the
key it was given. -/
theorem Reachable.string_keys {s : System n} (h : Reachable s) :
    s.queue.StringKeys
      ∧ ∀ key q, WorkQueue.iface.Get s.queue = some ((key, false), q) →
          ∃ str, key = .str str := by
  have hkeys : s.queue.StringKeys := by
    have both : s.Inv ∧ s.queue.StringKeys := by
      induction h with
      | refl =>
        refine ⟨System.init_inv, ?_, ?_, ?_, ?_⟩ <;>
          · intro key hk
            simp [System.init, WorkQueue.empty] at hk
      | tail _ hstep ih => exact ⟨hstep.preserves_inv ih.1, hstep.preserves_stringKeys ih.1 ih.2⟩
    exact both.2
  refine ⟨hkeys, ?_⟩
  intro key q hg
  have hstr := (WorkQueue.get_stringKeys s.queue q key hkeys hg).1
  cases key with
  | str str => exact ⟨str, rfl⟩
  | nil => simp [Item.isString] at hstr
  | other tag => simp [Item.isString] at hstr

end Interleaving

/-- C10: in every state the controller can reach, for any sequence of Add, Update
and Delete notifications and any number of workers, a key that one worker holds
between its `Get` and its `Done` is held by no other worker, and `Get` does not
hand it out again. -/
theorem no_two_workers_hold_the_same_key {n : Nat} (s : System n) (h : Reachable s)
    (i : Fin n) (key : Item) (hi : (s.workers i).inFlight = some key) :
    (∀ j, (s.workers j).inFlight = some key → j = i)
    ∧ ∀ q, WorkQueue.iface.Get s.queue ≠ some ((key, false), q) := by
  obtain ⟨hsound, hin, huniq⟩ := h.invariant
  refine ⟨fun j hj => huniq j i key hj hi, ?_⟩
  intro q hg
  exact (WorkQueue.get_sound s.queue q key hsound hg).2.2 (hin i key hi)

/-- C10, at two workers: the key `default/web` is added and the first worker
takes it. -/
theorem no_two_workers_hold_the_same_key_witness :
    Reachable busySystem
    ∧ (busySystem.workers 0).inFlight = some (.str "default/web")
    ∧ (∀ j, (busySystem.workers j).inFlight = some (.str "default/web") → j = 0)
    ∧ ∀ q, WorkQueue.iface.Get busySystem.queue ≠ some ((.str "default/web", false), q) :=
  have hreach : Reachable busySystem :=
    Relation.ReflTransGen.tail
      (Relation.ReflTransGen.tail Relation.ReflTransGen.refl
        (Step.added (System.init 2) cacheKeyFuncs (.deployment "default" "web")))
      (Step.get _ 0 (.str "default/web")
        { WorkQueue.empty with processing := [.str "default/web"] } rfl (by decide))
  ⟨hreach, rfl,
   no_two_workers_hold_the_same_key busySystem hreach 0 (.str "default/web") rfl⟩

end DeploymentWatcher
